import Mathlib

/-!
# ESPuino `src/SdCard.cpp`: file filter, random subdirectory, playlist construction

A shallow embedding of `fileValid`, `SdCard_pickRandomSubdirectory` and
`SdCard_ReturnPlaylist`, followed by theorems about them.

Conventions of the embedding
* A C string is the list of its characters, terminator excluded (`CStr`); one `Char` stands
  for one `char`.  A `char` buffer is modelled by the characters written to it.
* Conditional compilation (`#if` / `#ifdef`) is a field of `Env`, together with the
  answers of the environment that the code asks for: `psramInit()`, the allocator,
  opening a file for writing.
* The card is a finite map from paths to nodes (`FS`).
* Counters declared `uint8_t` / `uint16_t` are reduced modulo `2^8` / `2^16` where the
  code increments them.  The `uint32_t` counters count characters or delimiters of one
  C string held in memory, which are fewer than `2^32` on the 32-bit target, and are
  kept as natural numbers.
* A run has no result when it hands a null pointer to a string function, when it stores
  a pointer behind the end of the array `files`, or when a string function reads bytes of
  a buffer that were never written: the functions return `Option`, and `none` stands for
  that.
* The chunk counts that the code compares against are carried in the loop states; the
  array `files` records how many slots were allocated and which entries were written.
-/

namespace SdCard

/-! ## C strings -/

/-- Contents of a NUL-terminated `char` array, the terminator excluded. -/
abbrev CStr := List Char

/-- Modelled from the spec: `stringDelimiter` is declared outside `SdCard.cpp`; the spec
calls it the single reserved delimiter character, and the code counts it as `'#'`. -/
def stringDelimiter : CStr := ['#']

/-- The C string held by a zero-filled buffer into which `bytes` were copied: the bytes
before the first NUL. -/
def cstr (bytes : List Char) : CStr := bytes.takeWhile (fun c => c != Char.ofNat 0)

/-- C library `strncpy(dst, src, n)` followed by reading `dst` as a string.  When `src` has
fewer than `n` characters this is `src`; otherwise C leaves `dst` without terminator, and
the model keeps the `n` characters that were copied. -/
def strncpy (src : CStr) (n : Nat) : CStr := src.take n

/-- C library `strlwr`: every character through `tolower` of the C locale. -/
def strlwr (s : CStr) : CStr := s.map Char.toLower

/-- C library `strrchr(s, ch)`: the tail of `s` beginning at the last occurrence of `ch`;
`none` is the null pointer returned when `ch` does not occur. -/
def strrchr : CStr → Char → Option CStr
  | [], _ => none
  | c :: cs, ch =>
    match strrchr cs ch with
    | some t => some t
    | none => if c = ch then some (c :: cs) else none

/-- Modelled from the spec: `startsWith` is declared in `Common.h`, which is not among the
sources.  The spec uses it for "the final path segment starts with `.`": a test that `pre`
is an initial piece of `str`. -/
def startsWith (str pre : CStr) : Bool := pre.isPrefixOf str

/-- Modelled from the spec: `endsWith` is declared in `Common.h`, which is not among the
sources.  The spec uses it for "the lower-cased path ends with one of a fixed set of
extensions": a test that `suf` is a final piece of `str`. -/
def endsWith (str suf : CStr) : Bool := suf.isSuffixOf str

/-! ## `fileValid` -/

/-- Source `fileValid` (lines 104-131).  `dupOk` tells whether `x_strdup` returned a copy.
The result is `none` when `strrchr` finds no `'/'`: the null pointer is then handed
to `startsWith`, for which nothing is specified. -/
def fileValid (dupOk : Bool) (_fileItem : CStr) : Option Bool :=
  if dupOk then
    let lFileItem := strlwr _fileItem
    match strrchr lFileItem '/' with
    | none => none
    | some subst =>
      some ((!startsWith subst "/.".toList) && (
        endsWith lFileItem ".mp3".toList ||
        endsWith lFileItem ".aac".toList ||
        endsWith lFileItem ".m4a".toList ||
        endsWith lFileItem ".wav".toList ||
        endsWith lFileItem ".flac".toList ||
        endsWith lFileItem ".ogg".toList ||
        endsWith lFileItem ".opus".toList ||
        endsWith lFileItem ".m3u".toList ||
        endsWith lFileItem ".m3u8".toList ||
        endsWith lFileItem ".pls".toList ||
        endsWith lFileItem ".asx".toList))
  else some false

/-- The documented extensions: audio formats, then playlist formats. -/
def extensions : List CStr :=
  [".mp3".toList, ".aac".toList, ".m4a".toList, ".wav".toList, ".flac".toList,
   ".ogg".toList, ".opus".toList, ".m3u".toList, ".m3u8".toList, ".pls".toList,
   ".asx".toList]

/-- The final path segment: what follows the last `'/'` of the path (the whole path when
it has no `'/'`). -/
def finalSegment (path : CStr) : CStr := (path.reverse.takeWhile (fun c => c != '/')).reverse

/-! ## Environment and card -/

/-- The places where the code asks the allocator for memory.  An index tells the requests
of one place apart: the enumerated child, the chunk count asked for, the array slot. -/
inductive AllocSite where
  | validDup (child : Nat)
  | pickList
  | pickGrow (allocCount : Nat)
  | cacheList
  | m3uList
  | m3uGrow (allocCount : Nat)
  | fileArray
  | fileEntry
  | fileCount
  | scanList
  | scanGrow (allocCount : Nat)
  | array
  | entry (pos : Nat)
  | count
  deriving DecidableEq

/-- Build switches and the answers of the environment.
`fileExplorerSpeedup` selects the first branch of
`#if defined(HAS_FILEEXPLORER_SPEEDUP) || (ESP_ARDUINO_VERSION ... >= 2.0.8)`;
`cachedPlaylistEnable` is `#ifdef CACHED_PLAYLIST_ENABLE`; `psram` is the value of
`psramInit()`; `playlistCacheFile` is the constant of that name, declared outside
`SdCard.cpp`; `mem site` tells whether the allocation requested at `site` succeeds;
`openForWrite path` tells whether `gFSystem.open(path, FILE_WRITE)` yields a usable
handle. -/
structure Env where
  fileExplorerSpeedup : Bool
  cachedPlaylistEnable : Bool
  psram : Bool
  playlistCacheFile : CStr
  mem : AllocSite → Bool
  openForWrite : CStr → Bool

/-- Modelled from the spec: the play-mode constants are declared outside `SdCard.cpp`.
The spec lists an enumeration; the code names three of its values, all others are
`other n`. -/
inductive PlayMode where
  | SINGLE_TRACK
  | SINGLE_TRACK_LOOP
  | LOCAL_M3U
  | other (n : Nat)
  deriving DecidableEq

/-- One answer of the directory handle (`getNextFileName` / `openNextFile`): the full path
of a child and whether it is a directory. -/
structure Child where
  path : CStr
  isDir : Bool
  deriving DecidableEq

/-- What `gFSystem.open` finds at a path: a file with its bytes, or a directory with the
children its handle enumerates, in enumeration order. -/
inductive Node where
  | file (content : List Char)
  | dir (children : List Child)
  deriving DecidableEq

/-- `File::isDirectory()`. -/
def Node.isDirectory : Node → Bool
  | .file _ => false
  | .dir _ => true

/-- `File::size()`; a directory handle reports 0. -/
def Node.size : Node → Nat
  | .file content => content.length
  | .dir _ => 0

/-- The bytes that `read()` delivers while `available() > 0`; none for a directory. -/
def Node.bytes : Node → List Char
  | .file content => content
  | .dir _ => []

/-- The children that the handle enumerates; none for a file. -/
def Node.children : Node → List Child
  | .file _ => []
  | .dir children => children

/-- The card: paths and what is stored there; the first binding of a path counts. -/
structure FS where
  nodes : List (CStr × Node)
  deriving DecidableEq

/-- `gFSystem.open(path)`, also used for `gFSystem.exists(path)`. -/
def FS.find (fs : FS) (path : CStr) : Option Node := fs.nodes.lookup path

/-- The card after a file opened with `FILE_WRITE` received `content` and was closed. -/
def FS.write (fs : FS) (path : CStr) (content : List Char) : FS :=
  { nodes := (path, Node.file content) :: fs.nodes }

/-! ## Count and split (lines 461-501) -/

/-- Lines 463-467: the `for` loop that counts `'#'` in the serialized playlist. -/
def countDelimiters (s : CStr) : Nat :=
  s.foldl (fun cnt c => if c = '#' then cnt + 1 else cnt) 0

/-- Lines 480-485: `strtok(serializedPlaylist, stringDelimiter)` followed by
`strtok(NULL, stringDelimiter)` until it returns NULL.  `cur` is the token being read.
Delimiters in front of a token are skipped, so an empty piece yields no token. -/
def strtokAll (delim : CStr) : CStr → CStr → List CStr
  | [], cur => if cur = [] then [] else [cur]
  | c :: cs, cur =>
    if c ∈ delim then
      if cur = [] then strtokAll delim cs [] else cur :: strtokAll delim cs []
    else strtokAll delim cs (cur ++ [c])

/-- Line 483: `files[pos++] = x_strdup(token)` for each token; a failed copy stores the
null pointer (`none`), the code does not test it. -/
def copyTokens (mem : AllocSite → Bool) : Nat → List CStr → List (Option CStr)
  | _, [] => []
  | pos, token :: rest =>
    (if mem (.entry pos) then some token else none) :: copyTokens mem (pos + 1) rest

/-- Line 497: `snprintf(files[0], 5, "%u", cnt)`: at most four characters of the decimal
digits of `cnt` fit in front of the terminator. -/
def snprintf5 (cnt : Nat) : CStr := (Nat.toDigits 10 cnt).take 4

/-- C library `strtoul(s, NULL, 10)` on a string of digits (line 252 reads element 0 with
it): the value of the leading decimal digits. -/
def strtoul (s : CStr) : Nat :=
  (s.takeWhile Char.isDigit).foldl (fun n c => 10 * n + (c.toNat - '0'.toNat)) 0

/-- The array `files` as the code leaves it: `slots` pointers are allocated behind
element 0, `count` is element 0, `entries` are the elements written at positions
1, 2, ... in this order.  `none` is a null pointer stored by a failed copy. -/
structure Playlist where
  slots : Nat
  count : Option CStr
  entries : List (Option CStr)
  deriving DecidableEq

/-- Lines 461-501 on a non-null `serializedPlaylist`.  Line 470 allocates `cnt + 1`
pointers, element 0 and `cnt` slots behind it; the loop of lines 482-485 stores one
pointer per token.  Outer `none`: there are more tokens than slots, and line 483 stores
a pointer behind the end of the array.  Otherwise the first component is the value
returned (`none` is `nullptr`), the second tells whether `System_IndicateError` was
called. -/
def splitPlaylist (mem : AllocSite → Bool) (serializedPlaylist : CStr) :
    Option (Option Playlist × Bool) :=
  let cnt := countDelimiters serializedPlaylist
  if mem .array then
    let tokens := strtokAll stringDelimiter serializedPlaylist []
    if tokens.length ≤ cnt then
      let entries := copyTokens mem 1 tokens
      if mem .count then
        some (some { slots := cnt, count := some (snprintf5 cnt), entries := entries }, false)
      else some (none, true)
    else none
  else some (none, true)

/-- Lines 446-447 repeated: `strcat` of the delimiter and of the entry, for each entry in
order, starting from the empty (zero-filled) buffer. -/
def serialise (entries : List CStr) : CStr :=
  entries.foldl (fun list e => list ++ stringDelimiter ++ e) []

/-! ## `SdCard_ReturnPlaylist` -/

/-- What a call of `SdCard_ReturnPlaylist` leaves: the pointer returned (`none` is
`nullptr`), the card, whether `System_IndicateError` was called, and whether the
children of the target were asked for. -/
structure Outcome where
  files : Option Playlist
  fs : FS
  indicatedError : Bool
  enumerated : Bool
  deriving DecidableEq

/-- Line 265-267: the path of the cache file, built in `cacheFileNameBuf[275]`. -/
def cacheFileName (env : Env) (fileName : CStr) : CStr :=
  strncpy fileName 275 ++ "/".toList ++ env.playlistCacheFile

/-- Lines 275-280: the value of `enablePlaylistCaching`. -/
def enablePlaylistCaching (env : Env) (_playMode : PlayMode) : Bool :=
  env.cachedPlaylistEnable &&
    !(_playMode == .SINGLE_TRACK || _playMode == .SINGLE_TRACK_LOOP)

/-- Lines 264-310.  `none`: the buffer for the cache file could not be allocated (the
call returns `nullptr` and indicates the error).  Otherwise the values of
`readFromCacheFile` and `serializedPlaylist` (`none` is the null pointer). -/
def readCacheFile (env : Env) (fs : FS) (fileName : CStr) (_playMode : PlayMode) :
    Option (Bool × Option CStr) :=
  if env.cachedPlaylistEnable then
    let readFromCacheFile := (fs.find (cacheFileName env fileName)).isSome &&
      !(_playMode == .SINGLE_TRACK || _playMode == .SINGLE_TRACK_LOOP)
    if readFromCacheFile then
      match fs.find (cacheFileName env fileName) with
      | some cacheFile =>
        if cacheFile.size ≥ 1 then
          if env.mem .cacheList then some (true, some (cstr cacheFile.bytes))
          else none
        else some (false, none)
      | none => some (true, none)
    else some (false, none)
  else some (false, none)

/-- The variables of the m3u loop: the characters at positions `0 .. fPos-1` of
`serializedPlaylist` (so `fPos` is the length), `lastBuf`, `allocCount`. -/
structure M3uState where
  serializedPlaylist : List Char
  lastBuf : Char
  allocCount : Nat
  deriving DecidableEq

/-- Lines 332-360, one byte of the file per step.  The flag is true while
`readStringUntil` is consuming a comment, up to and including the next newline.
`none`: a `realloc` failed. -/
def m3uLoop (env : Env) (allocSize : Nat) : List Char → Bool → M3uState → Option M3uState
  | [], _, st => some st
  | buf :: rest, true, st => m3uLoop env allocSize rest (buf != '\n') st
  | buf :: rest, false, st =>
    if buf = '#' then m3uLoop env allocSize rest true st
    else
      let grow := decide (st.serializedPlaylist.length + 1 ≥ st.allocCount * allocSize)
      let allocCount := if grow then (st.allocCount + 1) % 65536 else st.allocCount
      if grow && !env.mem (.m3uGrow allocCount) then none
      else if buf ≠ '\n' ∧ buf ≠ '\r' then
        m3uLoop env allocSize rest false
          { serializedPlaylist := st.serializedPlaylist ++ [buf], lastBuf := buf,
            allocCount := allocCount }
      else if st.lastBuf ≠ '#' then
        m3uLoop env allocSize rest false
          { serializedPlaylist := st.serializedPlaylist ++ ['#'], lastBuf := '#',
            allocCount := allocCount }
      else m3uLoop env allocSize rest false { st with allocCount := allocCount }

/-- Lines 361-363: a `'#'` in the last written position is overwritten by the
terminator. -/
def stripTrailingDelimiter (buffer : List Char) : List Char :=
  if buffer.getLast? = some '#' then buffer.dropLast else buffer

/-- Lines 318-363 on the bytes of a non-empty file.  The loop writes no terminator.  The
first chunk comes zero-filled from `x_calloc` (line 321), the bytes that `realloc`
(line 340) adds behind it are not written by anyone.  So the buffer holds a C string when
the last character written is a `'#'`, which lines 361-363 replace by the terminator,
when a NUL byte of the file was written, or when the `fPos` characters written end inside
the first chunk.  Outer `none`: none of these holds, and `strlen` (line 463) and `strtok`
(line 480) read bytes that were never written.  `some none`: an allocation failed.
Otherwise the serialized playlist. -/
def parseM3u (env : Env) (bytes : List Char) : Option (Option CStr) :=
  let allocSize := if env.psram then 65535 else 1024
  if env.mem .m3uList then
    match m3uLoop env allocSize bytes false
        { serializedPlaylist := ['#'], lastBuf := '#', allocCount := 1 } with
    | some st =>
      if st.serializedPlaylist.getLast? = some '#' ∨
          Char.ofNat 0 ∈ st.serializedPlaylist ∨
          st.serializedPlaylist.length < allocSize then
        some (some (cstr (stripTrailingDelimiter st.serializedPlaylist)))
      else none
    | none => some none
  else some none

/-- The variables of the directory loop: `serializedPlaylist`, `allocCount`, and what
was printed to `cacheFile`. -/
structure ScanState where
  serializedPlaylist : CStr
  allocCount : Nat
  cacheOut : List Char
  deriving DecidableEq

/-- Lines 446-451: the accepted name is appended to the list and, when `caching`
(`cacheFile && enablePlaylistCaching`), printed to the cache file. -/
def ScanState.append (st : ScanState) (allocCount : Nat) (caching : Bool)
    (fileNameBuf : CStr) : ScanState :=
  { serializedPlaylist := st.serializedPlaylist ++ stringDelimiter ++ fileNameBuf,
    allocCount := allocCount,
    cacheOut := if caching then st.cacheOut ++ stringDelimiter ++ fileNameBuf
                else st.cacheOut }

/-- Lines 407-454, one answer of the directory handle per step; `i` numbers the answers.
Outer `none`: `fileValid` has no result.  The flag of the result is true when the loop
ended at the end of the enumeration, false when a `realloc` failed. -/
def scanLoop (env : Env) (allocSize : Nat) (caching : Bool) :
    List Child → Nat → ScanState → Option (Bool × ScanState)
  | [], _, st => some (true, st)
  | c :: rest, i, st =>
    if env.fileExplorerSpeedup && c.path.isEmpty then some (true, st)
    else if c.isDir then scanLoop env allocSize caching rest (i + 1) st
    else
      let fileNameBuf := strncpy c.path 255
      match fileValid (env.mem (.validDup i)) fileNameBuf with
      | none => none
      | some false => scanLoop env allocSize caching rest (i + 1) st
      | some true =>
        if st.serializedPlaylist.length + fileNameBuf.length + 2 ≥ st.allocCount * allocSize then
          let allocCount := (st.allocCount + 1) % 65536
          if env.mem (.scanGrow allocCount) then
            scanLoop env allocSize caching rest (i + 1) (st.append allocCount caching fileNameBuf)
          else some (false, { st with allocCount := allocCount })
        else
          scanLoop env allocSize caching rest (i + 1) (st.append st.allocCount caching fileNameBuf)

/-- Lines 372-392, file mode.  `none`: `fileValid` has no result. -/
def fileMode (env : Env) (fs : FS) (fileName : CStr) : Option Outcome :=
  if env.mem .fileArray then
    let fileNameBuf := strncpy fileName 255
    match fileValid (env.mem (.validDup 0)) fileNameBuf with
    | none => none
    | some valid =>
      some { files := some
               { slots := 1,
                 count := if env.mem .fileCount then some "1".toList else none,
                 entries := if valid then
                              [if env.mem .fileEntry then some fileNameBuf else none]
                            else [] },
             fs := fs, indicatedError := false, enumerated := false }
  else some { files := none, fs := fs, indicatedError := true, enumerated := false }

/-- Lines 394-458 and 461-501, directory mode.  `none`: a null pointer reaches a string
function (`fileValid` without result, or the unchecked `x_calloc` of line 401 failed), or
`splitPlaylist` has no result. -/
def directoryMode (env : Env) (fs : FS) (fileName : CStr) (_playMode : PlayMode)
    (children : List Child) : Option Outcome :=
  let allocSize := if env.psram then 65535 else 4096
  let caching := enablePlaylistCaching env _playMode &&
    env.openForWrite (cacheFileName env fileName)
  if env.mem .scanList then
    match scanLoop env allocSize caching children 0
        { serializedPlaylist := [], allocCount := 1, cacheOut := [] } with
    | none => none
    | some (ended, st) =>
      let fs1 := if caching then fs.write (cacheFileName env fileName) st.cacheOut else fs
      if ended then
        (splitPlaylist env.mem st.serializedPlaylist).map fun r =>
          { files := r.1, fs := fs1, indicatedError := r.2, enumerated := true }
      else some { files := none, fs := fs1, indicatedError := true, enumerated := true }
  else none

/-- Source `SdCard_ReturnPlaylist` (lines 240-502).  The release of the previous result
(lines 250-254) is not part of the model.  `none`: the run hands a null pointer to a
string function, stores a pointer behind the end of `files`, or reads bytes of the m3u
buffer that were never written. -/
def SdCard_ReturnPlaylist (env : Env) (fs : FS) (fileName : CStr) (_playMode : PlayMode) :
    Option Outcome :=
  match fs.find fileName with
  | none => some { files := none, fs := fs, indicatedError := false, enumerated := false }
  | some fileOrDirectory =>
    match readCacheFile env fs fileName _playMode with
    | none => some { files := none, fs := fs, indicatedError := true, enumerated := false }
    | some (readFromCacheFile, cached) =>
      if _playMode = .LOCAL_M3U then
        if !fileOrDirectory.isDirectory && fileOrDirectory.size > 0 then
          match parseM3u env fileOrDirectory.bytes with
          | none => none
          | some none =>
            some { files := none, fs := fs, indicatedError := true, enumerated := false }
          | some (some serializedPlaylist) =>
            (splitPlaylist env.mem serializedPlaylist).map fun r =>
              { files := r.1, fs := fs, indicatedError := r.2, enumerated := false }
        else some { files := none, fs := fs, indicatedError := false, enumerated := false }
      else if !readFromCacheFile then
        if !fileOrDirectory.isDirectory then fileMode env fs fileName
        else directoryMode env fs fileName _playMode fileOrDirectory.children
      else
        match cached with
        | some serializedPlaylist =>
          (splitPlaylist env.mem serializedPlaylist).map fun r =>
            { files := r.1, fs := fs, indicatedError := r.2, enumerated := false }
        | none => none

/-! ## `SdCard_pickRandomSubdirectory` -/

/-- What a call of `SdCard_pickRandomSubdirectory` leaves: the pointer returned (`none` is
NULL), the value of the static `allocCount`, whether `System_IndicateError` was called,
and whether `random` was called. -/
structure PickOutcome where
  path : Option CStr
  allocCount : Nat
  indicatedError : Bool
  drew : Bool
  deriving DecidableEq

/-- Lines 159-201, one answer of the directory handle per step.  The state is
`subdirectoryList`, the static `allocCount` (`uint8_t`) and `directoryCount`
(`uint16_t`).  The flag of the result is false when a `realloc` failed. -/
def pickLoop (env : Env) (allocSize : Nat) :
    List Child → CStr × Nat × Nat → Bool × CStr × Nat × Nat
  | [], st => (true, st)
  | c :: rest, (subdirectoryList, allocCount, directoryCount) =>
    if env.fileExplorerSpeedup && c.path.isEmpty then
      (true, subdirectoryList, allocCount, directoryCount)
    else if (if env.fileExplorerSpeedup then c.isDir else !c.isDir) then
      pickLoop env allocSize rest (subdirectoryList, allocCount, directoryCount)
    else
      let buffer := strncpy c.path 255
      if subdirectoryList.length + buffer.length + 2 ≥ allocCount * allocSize then
        let allocCount1 := (allocCount + 1) % 256
        if env.mem (.pickGrow allocCount1) then
          pickLoop env allocSize rest
            (subdirectoryList ++ stringDelimiter ++ buffer, allocCount1,
              (directoryCount + 1) % 65536)
        else (false, subdirectoryList, allocCount1, directoryCount)
      else
        pickLoop env allocSize rest
          (subdirectoryList ++ stringDelimiter ++ buffer, allocCount,
            (directoryCount + 1) % 65536)

/-- Lines 215-234: the walk over `subdirectoryList`.  `delimiterFoundCount` is a
`uint16_t`; `buffer` holds the `b` characters collected so far.  `none` is the `return
NULL` behind the loop. -/
def extractLoop (randomNumber : Nat) : CStr → Nat → CStr → Option CStr
  | [], _, _ => none
  | ch :: rest, delimiterFoundCount, buffer =>
    let delimiterFoundCount1 :=
      if ch = '#' then (delimiterFoundCount + 1) % 65536 else delimiterFoundCount
    let buffer1 :=
      if ch ≠ '#' ∧ delimiterFoundCount = randomNumber then buffer ++ [ch] else buffer
    if delimiterFoundCount1 > randomNumber ∨ buffer1.length = 254 then some buffer1
    else extractLoop randomNumber rest delimiterFoundCount1 buffer1

/-- Source `SdCard_pickRandomSubdirectory` (lines 135-235).  `allocCount` is the value of
the static variable on entry (1 before the first call); `draw` is the value that
`random(directoryCount)` returns if it is called. -/
def SdCard_pickRandomSubdirectory (env : Env) (fs : FS) (allocCount : Nat)
    (_directory : CStr) (draw : Nat) : PickOutcome :=
  match fs.find _directory with
  | none => { path := none, allocCount := allocCount, indicatedError := false, drew := false }
  | some directory =>
    let allocSize := if env.psram then 65535 else 1024
    if env.mem .pickList then
      match pickLoop env allocSize directory.children ([], allocCount, 0) with
      | (false, _, allocCount1, _) =>
        { path := none, allocCount := allocCount1, indicatedError := true, drew := false }
      | (true, subdirectoryList, allocCount1, directoryCount) =>
        if directoryCount = 0 then
          { path := none, allocCount := allocCount1, indicatedError := false, drew := false }
        else
          let randomNumber := (draw + 1) % 65536
          { path := extractLoop randomNumber (subdirectoryList ++ stringDelimiter) 0 [],
            allocCount := allocCount1, indicatedError := false, drew := true }
    else { path := none, allocCount := allocCount, indicatedError := true, drew := false }

/-! ## Vocabulary of the specification -/

/-- The non-directory children whose path passes `fileValid`, in enumeration order. -/
def acceptedPaths (children : List Child) : List CStr :=
  (children.filter (fun c => !c.isDir && fileValid true c.path == some true)).map Child.path

/-! ## Sample environments and cards -/

/-- A build with the file-explorer speed-up and the playlist cache, no PSRAM, every
allocation and every open-for-write succeeding. -/
def sampleEnv : Env :=
  { fileExplorerSpeedup := true, cachedPlaylistEnable := true, psram := false,
    playlistCacheFile := "playlistcache.csv".toList,
    mem := fun _ => true, openForWrite := fun _ => true }

/-- The directory `/Test` of the specification: `b.mp3`, `a.mp3`, `.skip.mp3`,
`notes.txt`, enumerated in this order. -/
def testChildren : List Child :=
  [{ path := "/Test/b.mp3".toList, isDir := false },
   { path := "/Test/a.mp3".toList, isDir := false },
   { path := "/Test/.skip.mp3".toList, isDir := false },
   { path := "/Test/notes.txt".toList, isDir := false }]

/-- A card that holds the directory `/Test` and nothing else. -/
def testCard : FS := { nodes := [("/Test".toList, Node.dir testChildren)] }

/-- The lines of a text, as the pieces between the line terminators `'\n'` and `'\r'`. -/
def splitLines : List Char → List (List Char)
  | [] => [[]]
  | c :: cs =>
    if c = '\n' ∨ c = '\r' then [] :: splitLines cs
    else
      match splitLines cs with
      | [] => [[c]]
      | l :: ls => (c :: l) :: ls

/-- The lines of an m3u text that are non-empty and do not begin with `'#'`, in file
order. -/
def m3uEntries (text : List Char) : List CStr :=
  (splitLines text).filter (fun l => !l.isEmpty && l.head? != some '#')

/-- Where a reader stands in an m3u text: at the start of a line, inside a line that
does not begin with `'#'`, inside a line that begins with `'#'`, or behind a `'\r'`
that ended a line beginning with `'#'` (or one of the lines named for `afterCR`). -/
inductive M3uPos where
  | lineStart
  | inEntry
  | inComment
  | afterCR
  deriving DecidableEq

/-- The texts on which line-wise reading and the code agree, from position `pos` on:
* a `'#'` occurs only in lines that begin with `'#'`;
* when a line that begins with `'#'` is ended by `'\r'`, then up to the next `'\n'` only
  empty lines and lines that begin with `'#'` follow. -/
def m3uTidy : M3uPos → List Char → Bool
  | _, [] => true
  | .lineStart, c :: cs =>
    if c = '#' then m3uTidy .inComment cs
    else if c = '\n' ∨ c = '\r' then m3uTidy .lineStart cs
    else m3uTidy .inEntry cs
  | .inEntry, c :: cs =>
    if c = '#' then false
    else if c = '\n' ∨ c = '\r' then m3uTidy .lineStart cs
    else m3uTidy .inEntry cs
  | .inComment, c :: cs =>
    if c = '\n' then m3uTidy .lineStart cs
    else if c = '\r' then m3uTidy .afterCR cs
    else m3uTidy .inComment cs
  | .afterCR, c :: cs =>
    if c = '\n' then m3uTidy .lineStart cs
    else if c = '\r' then m3uTidy .afterCR cs
    else if c = '#' then m3uTidy .inComment cs
    else false

/-- A card that holds one m3u file, `/list.m3u`, with the given bytes. -/
def m3uCard (bytes : List Char) : FS := { nodes := [("/list.m3u".toList, Node.file bytes)] }

/-- While the code consumes a comment with `readStringUntil`, the reader stands inside a
line that begins with `'#'` or behind its `'\r'`. -/
def M3uPos.skipping : M3uPos → Bool
  | .lineStart => false
  | .inEntry => false
  | .inComment => true
  | .afterCR => true

/-- The entries that line-wise reading yields from position `pos` on, when `p` is the part
already read of the current line (empty unless `pos` is `inEntry`). -/
def m3uRemaining : M3uPos → CStr → List Char → List CStr
  | .lineStart, p, text => m3uEntries (p ++ text)
  | .inEntry, p, text => m3uEntries (p ++ text)
  | .inComment, _, text => m3uEntries ('#' :: text)
  | .afterCR, _, text => m3uEntries text

/-- The build of `sampleEnv` without the file-explorer speed-up: the `#else` branch of the
directory loops. -/
def legacyEnv : Env := { sampleEnv with fileExplorerSpeedup := false }

/-- A card with the directory `/m`, which holds the subdirectory `/m/sub` and the file
`/m/a.mp3`. -/
def mixedCard : FS :=
  { nodes := [("/m".toList, Node.dir
      [{ path := "/m/sub".toList, isDir := true },
       { path := "/m/a.mp3".toList, isDir := false }])] }

/-- A card with the directory `/f`, which holds the file `/f/a.mp3` and no
subdirectory. -/
def filesOnlyCard : FS :=
  { nodes := [("/f".toList, Node.dir [{ path := "/f/a.mp3".toList, isDir := false }])] }

/-- The build of `sampleEnv` without `CACHED_PLAYLIST_ENABLE`. -/
def uncachedEnv : Env := { sampleEnv with cachedPlaylistEnable := false }

/-- A card with the directory `/c`, which now holds the file `/c/new.mp3`, and with a
cache file `/c/playlistcache.csv` that lists `/c/old.mp3`. -/
def staleCard : FS :=
  { nodes := [("/c".toList, Node.dir [{ path := "/c/new.mp3".toList, isDir := false }]),
              ("/c/playlistcache.csv".toList, Node.file "#/c/old.mp3".toList)] }

/-- A card with the directory `/Cached`, which holds the file `/Cached/a.mp3`, and
without cache file. -/
def freshCard : FS :=
  { nodes := [("/Cached".toList,
      Node.dir [{ path := "/Cached/a.mp3".toList, isDir := false }])] }

/-- A card with the directory `/big` and a cache file that lists `/big/a.mp3` ten
thousand times. -/
def bigCard : FS :=
  { nodes := [("/big".toList, Node.dir []),
              ("/big/playlistcache.csv".toList,
                Node.file (serialise (List.replicate 10000 "/big/a.mp3".toList)))] }

/-- A card with the file `/music/song.MP3` (three bytes) and nothing else. -/
def songCard : FS := { nodes := [("/music/song.MP3".toList, Node.file "ID3".toList)] }

/-- The environment of `sampleEnv` with an allocator that refuses the request made at
`site` and grants all others. -/
def failingEnv (site : AllocSite) : Env :=
  { sampleEnv with mem := fun s => decide (s ≠ site) }

/-- A card with the directory `/m` that holds the file `/m/a#b.mp3`. -/
def hashCard : FS :=
  { nodes := [("/m".toList, Node.dir [{ path := "/m/a#b.mp3".toList, isDir := false }])] }

/-- Two adjacent `'#'` somewhere in the list. -/
def adjacentDelimiters : CStr → Bool
  | a :: b :: rest => (a == '#' && b == '#') || adjacentDelimiters (b :: rest)
  | _ => false

/-- The shape of a serialized list without empty entry: it starts with `'#'`, no two
`'#'` are adjacent, and the last character is not `'#'`. -/
def wellDelimited (s : CStr) : Bool :=
  s.head? == some '#' && !adjacentDelimiters s && s.getLast? != some '#'

/-- Every slot behind the count element holds an entry: as many entries were written as
slots were allocated, and none of them is a null pointer. -/
def Playlist.filled (p : Playlist) : Prop :=
  p.entries.length = p.slots ∧ ∀ e ∈ p.entries, e ≠ none

/-- A card with the directory `/m` that holds the file `/m/a##b.mp3`. -/
def doubleHashCard : FS :=
  { nodes := [("/m".toList, Node.dir [{ path := "/m/a##b.mp3".toList, isDir := false }])] }

/-- The sizes that lines 150 and 186-198 of `SdCard_pickRandomSubdirectory` work with:
`length` is `strlen(subdirectoryList)`, `allocCount` the static chunk count used by the
overflow test, `allocated` the number of bytes of the block `subdirectoryList` points
to. -/
structure PickSizes where
  length : Nat
  allocCount : Nat
  allocated : Nat
  deriving DecidableEq

/-- Lines 159-201 once more, with the sizes in place of the contents: an append adds the
delimiter and the name to the length; a successful `realloc` of line 187 makes the block
`allocCount * allocSize` bytes large.  The flag is false when a `realloc` failed. -/
def pickSizesLoop (env : Env) (allocSize : Nat) : List Child → PickSizes → Bool × PickSizes
  | [], st => (true, st)
  | c :: rest, st =>
    if env.fileExplorerSpeedup && c.path.isEmpty then (true, st)
    else if (if env.fileExplorerSpeedup then c.isDir else !c.isDir) then
      pickSizesLoop env allocSize rest st
    else
      let buffer := strncpy c.path 255
      if st.length + buffer.length + 2 ≥ st.allocCount * allocSize then
        let allocCount1 := (st.allocCount + 1) % 256
        if env.mem (.pickGrow allocCount1) then
          pickSizesLoop env allocSize rest
            { length := st.length + 1 + buffer.length, allocCount := allocCount1,
              allocated := allocCount1 * allocSize }
        else (false, { st with allocCount := allocCount1 })
      else
        pickSizesLoop env allocSize rest { st with length := st.length + 1 + buffer.length }

/-- The sizes when the loop of a call of `SdCard_pickRandomSubdirectory` ends.  The call
enters with the static `allocCount` and a block of `allocSize` bytes from `x_calloc`
(line 150).  `none`: the target does not exist or `x_calloc` failed.  Line 202 then
appends the final delimiter, so `length + 2` bytes are needed. -/
def pickSizes (env : Env) (fs : FS) (allocCount : Nat) (_directory : CStr) :
    Option (Bool × PickSizes) :=
  match fs.find _directory with
  | none => none
  | some directory =>
    let allocSize := if env.psram then 65535 else 1024
    if env.mem .pickList then
      some (pickSizesLoop env allocSize directory.children
        { length := 0, allocCount := allocCount, allocated := allocSize })
    else none

/-- A subdirectory of `/d` whose full path has 243 characters. -/
def longChild (c : Char) : Child :=
  { path := "/d/".toList ++ List.replicate 240 c, isDir := true }

/-- A card with the directory `/d` that holds five subdirectories with paths of 243
characters. -/
def longCard : FS :=
  { nodes := [("/d".toList, Node.dir
      [longChild 'a', longChild 'b', longChild 'c', longChild 'd', longChild 'e'])] }

/-- The build of `sampleEnv` on a board with PSRAM. -/
def psramEnv : Env := { sampleEnv with psram := true }

/-- The path `/many/dddd.mp3`, where `dddd` are the four decimal digits of `i`. -/
def numberedPath (i : Nat) : CStr :=
  "/many/".toList ++
    [Nat.digitChar (i / 1000 % 10), Nat.digitChar (i / 100 % 10),
     Nat.digitChar (i / 10 % 10), Nat.digitChar (i % 10)] ++ ".mp3".toList

/-- The ten thousand files `/many/0000.mp3` to `/many/9999.mp3`, as the directory handle
of `/many` reports them. -/
def numberedChildren : List Child :=
  (List.range 10000).map fun i => { path := numberedPath i, isDir := false }

/-- A card with the directory `/many` that holds the ten thousand files of
`numberedChildren`. -/
def numberedCard : FS := { nodes := [("/many".toList, Node.dir numberedChildren)] }

/-- An m3u text of 1059 bytes: 53 lines `/music/track-01.mp3`, each but the last ended by
a newline; the last line has no line terminator. -/
def unterminatedText : List Char :=
  (List.replicate 52 "/music/track-01.mp3\n".toList).flatten ++ "/music/track-01.mp3".toList

/-- An m3u text of `n` lines `/a.mp3`, each ended by a newline. -/
def repeatedLines : Nat → List Char
  | 0 => []
  | n + 1 => "/a.mp3\n".toList ++ repeatedLines n

/-- A card with the directory `/c`, which holds the file `/c/new.mp3`, and with a cache
file `/c/playlistcache.csv` whose content "/c/x.mp3#/c/y.mp3" does not begin with the
delimiter. -/
def looseCacheCard : FS :=
  { nodes := [("/c".toList, Node.dir [{ path := "/c/new.mp3".toList, isDir := false }]),
              ("/c/playlistcache.csv".toList, Node.file "/c/x.mp3#/c/y.mp3".toList)] }

/-- The environment of `sampleEnv` on the target, where a `realloc` to size 0 frees the
block and returns NULL: the request for zero chunks is refused, all others are
granted. -/
def targetEnv : Env := failingEnv (AllocSite.scanGrow 0)

/-! ## Theorems -/

/-! ### Characters and C-string helpers -/

theorem toLower_ne_of_lt (c d : Char) (hd : d.toNat < 97) (hcd : c ≠ d) : c.toLower ≠ d := by
  unfold Char.toLower
  simp only
  split
  · rename_i h
    obtain ⟨h1, h2⟩ := h
    intro he
    generalize c.toNat = n at *
    interval_cases n <;> (subst he; revert hd; decide)
  · exact hcd

theorem toLower_eq_slash (c : Char) : c.toLower = '/' ↔ c = '/' := by
  constructor
  · intro h
    by_contra hc
    exact toLower_ne_of_lt c '/' (by decide) hc h
  · rintro rfl; decide

theorem toLower_eq_dot (c : Char) : c.toLower = '.' ↔ c = '.' := by
  constructor
  · intro h
    by_contra hc
    exact toLower_ne_of_lt c '.' (by decide) hc h
  · rintro rfl; decide

theorem strrchr_eq_none (s : CStr) (ch : Char) (h : ch ∉ s) : strrchr s ch = none := by
  induction s with
  | nil => rfl
  | cons c cs ih =>
    have h1 : ch ∉ cs := fun hm => h (List.mem_cons_of_mem _ hm)
    have h2 : c ≠ ch := fun he => h (by simp [he])
    simp [strrchr, ih h1, h2]

theorem strrchr_append_cons (pre seg : CStr) (ch : Char) (h : ch ∉ seg) :
    strrchr (pre ++ ch :: seg) ch = some (ch :: seg) := by
  induction pre with
  | nil => simp [strrchr, strrchr_eq_none seg ch h]
  | cons c cs ih => simp [strrchr, ih]

theorem finalSegment_append_cons (pre seg : CStr) (h : '/' ∉ seg) :
    finalSegment (pre ++ '/' :: seg) = seg := by
  unfold finalSegment
  have hall : ∀ a ∈ seg.reverse, (fun c : Char => c != '/') a = true := by
    intro a ha
    have : a ≠ '/' := fun he => h (by simpa [he] using ha)
    simpa using this
  rw [List.reverse_append, List.reverse_cons, List.append_assoc,
    List.takeWhile_append_of_pos hall]
  simp

theorem exists_last_slash (s : CStr) (h : '/' ∈ s) :
    ∃ pre seg, s = pre ++ '/' :: seg ∧ '/' ∉ seg := by
  induction s with
  | nil => simp at h
  | cons c cs ih =>
    by_cases hc : '/' ∈ cs
    · obtain ⟨pre, seg, he, hs⟩ := ih hc
      exact ⟨c :: pre, seg, by simp [he], hs⟩
    · have : c = '/' := by
        rcases List.mem_cons.mp h with h1 | h1
        · exact h1.symm
        · exact absurd h1 hc
      exact ⟨[], cs, by simp [this], hc⟩

theorem slash_not_mem_map_toLower (seg : CStr) (h : '/' ∉ seg) : '/' ∉ seg.map Char.toLower := by
  intro hm
  obtain ⟨a, ha, hae⟩ := List.mem_map.mp hm
  exact h ((toLower_eq_slash a).mp hae ▸ ha)

/-! ### `fileValid` -/

theorem fileValid_of_last_slash (pre seg : CStr) (h : '/' ∉ seg) :
    fileValid true (pre ++ '/' :: seg) =
      some (decide (seg.head? ≠ some '.' ∧
        ∃ e ∈ extensions, e <:+ (pre ++ '/' :: seg).map Char.toLower)) := by
  have hs : strrchr (strlwr (pre ++ '/' :: seg)) '/' = some ('/' :: seg.map Char.toLower) := by
    have := strrchr_append_cons (pre.map Char.toLower) (seg.map Char.toLower) '/'
      (slash_not_mem_map_toLower seg h)
    simpa [strlwr] using this
  have hd : startsWith ('/' :: seg.map Char.toLower) "/.".toList = decide (seg.head? = some '.') := by
    cases seg with
    | nil => simp [startsWith, List.isPrefixOf]
    | cons c cs =>
      by_cases hc : c = '.'
      · subst hc
        simp [startsWith, List.isPrefixOf]
      · have : ¬ '.' = c.toLower := fun he => hc ((toLower_eq_dot c).mp he.symm)
        simp [startsWith, List.isPrefixOf, hc, this]
  simp only [fileValid, if_true, hs, hd]
  simp only [endsWith, extensions, strlwr]
  rw [Option.some.injEq, Bool.eq_iff_iff]
  simp only [Bool.and_eq_true, Bool.not_eq_true', decide_eq_false_iff_not, Bool.or_eq_true,
    List.isSuffixOf_iff_suffix, decide_eq_true_eq, List.mem_cons, List.mem_singleton,
    exists_eq_or_imp, exists_eq_left, List.not_mem_nil, false_and, exists_false, or_false,
    ne_eq, or_assoc]

/-- C3: for a path with at least one '/', `fileValid` is true exactly when the character
after the last '/' is not '.' and the ASCII-lower-cased path ends with one of the eleven
documented extensions; it accepts "/music/song.MP3" and "/music/list.m3u8", rejects
"/music/.hidden.mp3" and "/music/readme.txt"; and two paths that differ only in
letter case get the same answer. -/
theorem fileValid_decides_filter :
    (∀ path : CStr, '/' ∈ path →
      ∃ b, fileValid true path = some b ∧
        (b = true ↔ (finalSegment path).head? ≠ some '.' ∧
          ∃ e ∈ extensions, e <:+ path.map Char.toLower)) ∧
    (fileValid true "/music/song.MP3".toList = some true ∧
      fileValid true "/music/list.m3u8".toList = some true ∧
      fileValid true "/music/.hidden.mp3".toList = some false ∧
      fileValid true "/music/readme.txt".toList = some false) ∧
    (∀ p q : CStr, p.map Char.toLower = q.map Char.toLower →
      fileValid true p = fileValid true q) := by
  refine ⟨?_, ⟨by decide, by decide, by decide, by decide⟩, ?_⟩
  · intro path hp
    obtain ⟨pre, seg, rfl, hseg⟩ := exists_last_slash path hp
    refine ⟨_, fileValid_of_last_slash pre seg hseg, ?_⟩
    rw [finalSegment_append_cons pre seg hseg]
    simp
  · intro p q hpq
    simp only [fileValid, strlwr, hpq]

theorem fileValid_decides_filter_witness :
    '/' ∈ "/Music/Song.Flac".toList ∧
      ∃ b, fileValid true "/Music/Song.Flac".toList = some b ∧
        (b = true ↔ (finalSegment "/Music/Song.Flac".toList).head? ≠ some '.' ∧
          ∃ e ∈ extensions, e <:+ "/Music/Song.Flac".toList.map Char.toLower) :=
  ⟨by decide, fileValid_decides_filter.1 _ (by decide)⟩

/-! ### The delimited list -/

theorem foldl_serialise (acc : CStr) (entries : List CStr) :
    entries.foldl (fun list e => list ++ stringDelimiter ++ e) acc = acc ++ serialise entries := by
  induction entries generalizing acc with
  | nil => simp [serialise]
  | cons e es ih =>
    simp only [serialise, List.foldl_cons]
    rw [ih, ih ([] ++ stringDelimiter ++ e)]
    simp

theorem serialise_nil : serialise [] = [] := rfl

theorem serialise_cons (e : CStr) (es : List CStr) :
    serialise (e :: es) = '#' :: (e ++ serialise es) := by
  simp only [serialise, List.foldl_cons]
  rw [foldl_serialise]
  simp [stringDelimiter, serialise]

theorem serialise_append (es fs : List CStr) :
    serialise (es ++ fs) = serialise es ++ serialise fs := by
  induction es with
  | nil => simp [serialise_nil]
  | cons e es ih => simp [serialise_cons, ih]

theorem countDelimiters_eq_count (s : CStr) : countDelimiters s = s.count '#' := by
  unfold countDelimiters
  suffices h : ∀ n, s.foldl (fun cnt c => if c = '#' then cnt + 1 else cnt) n = n + s.count '#' by
    simpa using h 0
  induction s with
  | nil => simp
  | cons c cs ih =>
    intro n
    by_cases hc : c = '#'
    · subst hc
      simp [ih]
      omega
    · simp [ih, hc, List.count_cons]

theorem count_eq_zero_of_not_mem (e : CStr) (h : '#' ∉ e) : e.count '#' = 0 :=
  List.count_eq_zero.mpr h

theorem countDelimiters_serialise (entries : List CStr) (h : ∀ e ∈ entries, '#' ∉ e) :
    countDelimiters (serialise entries) = entries.length := by
  rw [countDelimiters_eq_count]
  induction entries with
  | nil => simp [serialise_nil]
  | cons e es ih =>
    have he : '#' ∉ e := h e (by simp)
    have hes : ∀ x ∈ es, '#' ∉ x := fun x hx => h x (by simp [hx])
    rw [serialise_cons, List.count_cons, List.count_append, ih hes,
      count_eq_zero_of_not_mem e he]
    simp

theorem strtokAll_delim (cs cur : CStr) :
    strtokAll stringDelimiter ('#' :: cs) cur =
      if cur = [] then strtokAll stringDelimiter cs []
      else cur :: strtokAll stringDelimiter cs [] := by
  simp [strtokAll, stringDelimiter]

theorem strtokAll_other (c : Char) (cs cur : CStr) (hc : c ≠ '#') :
    strtokAll stringDelimiter (c :: cs) cur = strtokAll stringDelimiter cs (cur ++ [c]) := by
  simp [strtokAll, stringDelimiter, hc]

theorem strtokAll_append (e rest cur : CStr) (h : '#' ∉ e) :
    strtokAll stringDelimiter (e ++ rest) cur = strtokAll stringDelimiter rest (cur ++ e) := by
  induction e generalizing cur with
  | nil => simp
  | cons c cs ih =>
    have hc : c ≠ '#' := fun he => h (by simp [he])
    have hcs : '#' ∉ cs := fun hm => h (by simp [hm])
    rw [List.cons_append, strtokAll_other c _ _ hc, ih _ hcs]
    simp

theorem strtokAll_serialise (entries : List CStr) (h : ∀ e ∈ entries, e ≠ [] ∧ '#' ∉ e)
    (cur : CStr) :
    strtokAll stringDelimiter (serialise entries) cur =
      if cur = [] then entries else cur :: entries := by
  induction entries generalizing cur with
  | nil => simp [serialise_nil, strtokAll]
  | cons e es ih =>
    have he := h e (by simp)
    have hes : ∀ x ∈ es, x ≠ [] ∧ '#' ∉ x := fun x hx => h x (by simp [hx])
    have hstep : strtokAll stringDelimiter (e ++ serialise es) [] = e :: es := by
      rw [strtokAll_append e _ [] he.2, ih hes]
      simp [he.1]
    rw [serialise_cons, strtokAll_delim, hstep]

theorem cstr_eq_self (s : List Char) (h : Char.ofNat 0 ∉ s) : cstr s = s := by
  unfold cstr
  rw [List.takeWhile_eq_self_iff]
  intro c hc
  have : c ≠ Char.ofNat 0 := fun he => h (he ▸ hc)
  simpa using this

theorem nul_not_mem_serialise (entries : List CStr) (h : ∀ e ∈ entries, Char.ofNat 0 ∉ e) :
    Char.ofNat 0 ∉ serialise entries := by
  induction entries with
  | nil => simp [serialise_nil]
  | cons e es ih =>
    have he := h e (by simp)
    have hes : ∀ x ∈ es, Char.ofNat 0 ∉ x := fun x hx => h x (by simp [hx])
    rw [serialise_cons]
    intro hm
    rcases List.mem_cons.mp hm with h1 | h1
    · exact absurd h1 (by decide)
    · rcases List.mem_append.mp h1 with h2 | h2
      · exact he h2
      · exact ih hes h2

theorem copyTokens_all (mem : AllocSite → Bool) (hmem : ∀ site, mem site = true) (pos : Nat)
    (tokens : List CStr) : copyTokens mem pos tokens = tokens.map some := by
  induction tokens generalizing pos with
  | nil => rfl
  | cons t ts ih => simp [copyTokens, hmem, ih]

theorem strtokAll_length_le (s cur : CStr) :
    (strtokAll stringDelimiter s cur).length ≤ countDelimiters s + 1 := by
  rw [countDelimiters_eq_count]
  induction s generalizing cur with
  | nil => by_cases h : cur = [] <;> simp [strtokAll, h]
  | cons c cs ih =>
    by_cases hc : c = '#'
    · subst hc
      rw [strtokAll_delim]
      have := ih []
      by_cases h : cur = [] <;> simp [h] <;> omega
    · rw [strtokAll_other c cs cur hc, List.count_cons_of_ne (Ne.symm hc)]
      exact ih _

theorem strtokAll_fits (s : CStr) (h : s = [] ∨ s.head? = some '#') :
    (strtokAll stringDelimiter s []).length ≤ countDelimiters s := by
  cases s with
  | nil => simp [strtokAll]
  | cons c cs =>
    have hc : c = '#' := by simpa using h
    subst hc
    have := strtokAll_length_le cs []
    rw [strtokAll_delim, if_pos rfl]
    rw [countDelimiters_eq_count] at this ⊢
    simpa using this

theorem serialise_head (entries : List CStr) :
    serialise entries = [] ∨ (serialise entries).head? = some '#' := by
  cases entries with
  | nil => exact Or.inl rfl
  | cons e es => right; rw [serialise_cons]; rfl

theorem splitPlaylist_ok (mem : AllocSite → Bool) (hmem : ∀ site, mem site = true)
    (s : CStr) (hfit : (strtokAll stringDelimiter s []).length ≤ countDelimiters s) :
    splitPlaylist mem s = some
      (some { slots := countDelimiters s, count := some (snprintf5 (countDelimiters s)),
              entries := (strtokAll stringDelimiter s []).map some }, false) := by
  simp only [splitPlaylist, hmem, if_true, hfit, copyTokens_all mem hmem]

theorem splitPlaylist_serialise (mem : AllocSite → Bool) (hmem : ∀ site, mem site = true)
    (entries : List CStr) (h : ∀ e ∈ entries, e ≠ [] ∧ '#' ∉ e) :
    splitPlaylist mem (serialise entries) = some
      (some { slots := entries.length, count := some (snprintf5 entries.length),
              entries := entries.map some }, false) := by
  rw [splitPlaylist_ok mem hmem _ (strtokAll_fits _ (serialise_head entries)),
    countDelimiters_serialise entries (fun e he => (h e he).2),
    strtokAll_serialise entries h]
  simp

/-- C2: for entries that are non-empty and contain neither '#' nor NUL, the list built
by appending '#' and the entry for each entry, read back as a C string, is cut by the
`strtok` loop into exactly the original entries in the original order, and the number of
'#' counted is the number of entries. -/
theorem serialise_roundtrip (entries : List CStr)
    (h : ∀ e ∈ entries, e ≠ [] ∧ '#' ∉ e ∧ Char.ofNat 0 ∉ e) :
    strtokAll stringDelimiter (cstr (serialise entries)) [] = entries ∧
      countDelimiters (cstr (serialise entries)) = entries.length := by
  rw [cstr_eq_self _ (nul_not_mem_serialise entries (fun e he => (h e he).2.2))]
  refine ⟨?_, countDelimiters_serialise entries (fun e he => (h e he).2.1)⟩
  rw [strtokAll_serialise entries (fun e he => ⟨(h e he).1, (h e he).2.1⟩)]
  simp

theorem serialise_roundtrip_witness :
    (∀ e ∈ ["a.mp3".toList, "b.mp3".toList, "c.mp3".toList],
        e ≠ [] ∧ '#' ∉ e ∧ Char.ofNat 0 ∉ e) ∧
      strtokAll stringDelimiter
          (cstr (serialise ["a.mp3".toList, "b.mp3".toList, "c.mp3".toList])) [] =
        ["a.mp3".toList, "b.mp3".toList, "c.mp3".toList] ∧
      countDelimiters (cstr (serialise ["a.mp3".toList, "b.mp3".toList, "c.mp3".toList])) = 3 :=
  ⟨by decide, serialise_roundtrip _ (by decide)⟩

/-! ### The directory scan -/

theorem strncpy_eq_self (src : CStr) (n : Nat) (h : src.length ≤ n) : strncpy src n = src :=
  List.take_of_length_le h

theorem fileValid_some (path : CStr) (h : '/' ∈ path) : ∃ b, fileValid true path = some b := by
  obtain ⟨pre, seg, rfl, hseg⟩ := exists_last_slash path h
  exact ⟨_, fileValid_of_last_slash pre seg hseg⟩

theorem acceptedPaths_nil : acceptedPaths [] = [] := rfl

theorem acceptedPaths_cons_dir (c : Child) (rest : List Child) (h : c.isDir = true) :
    acceptedPaths (c :: rest) = acceptedPaths rest := by
  simp [acceptedPaths, List.filter_cons, h]

theorem acceptedPaths_cons_invalid (c : Child) (rest : List Child)
    (h : fileValid true c.path = some false) :
    acceptedPaths (c :: rest) = acceptedPaths rest := by
  simp [acceptedPaths, List.filter_cons, h]

theorem acceptedPaths_cons_valid (c : Child) (rest : List Child) (hd : c.isDir = false)
    (h : fileValid true c.path = some true) :
    acceptedPaths (c :: rest) = c.path :: acceptedPaths rest := by
  simp [acceptedPaths, List.filter_cons, h, hd]

theorem scanLoop_accepts (env : Env) (hmem : ∀ site, env.mem site = true) (allocSize : Nat)
    (caching : Bool) (children : List Child)
    (hpaths : ∀ c ∈ children, '/' ∈ c.path ∧ c.path.length < 255) (i : Nat) (st : ScanState) :
    ∃ allocCount, scanLoop env allocSize caching children i st = some (true,
      { serializedPlaylist := st.serializedPlaylist ++ serialise (acceptedPaths children),
        allocCount := allocCount,
        cacheOut := if caching then st.cacheOut ++ serialise (acceptedPaths children)
                    else st.cacheOut }) := by
  induction children generalizing i st with
  | nil =>
    refine ⟨st.allocCount, ?_⟩
    cases caching <;> simp [scanLoop, acceptedPaths_nil, serialise_nil]
  | cons c rest ih =>
    have hc := hpaths c (by simp)
    have hrest : ∀ x ∈ rest, '/' ∈ x.path ∧ x.path.length < 255 :=
      fun x hx => hpaths x (by simp [hx])
    have hne : c.path.isEmpty = false := by
      cases hp : c.path with
      | nil => rw [hp] at hc; simp at hc
      | cons a as => rfl
    have hcpy : strncpy c.path 255 = c.path := strncpy_eq_self _ _ (by omega)
    cases hd : c.isDir with
    | true =>
      obtain ⟨ac, hac⟩ := ih hrest (i + 1) st
      refine ⟨ac, ?_⟩
      rw [acceptedPaths_cons_dir c rest hd]
      simp [scanLoop, hne, hd, hac]
    | false =>
      obtain ⟨b, hb⟩ := fileValid_some c.path hc.1
      cases b with
      | false =>
        obtain ⟨ac, hac⟩ := ih hrest (i + 1) st
        refine ⟨ac, ?_⟩
        rw [acceptedPaths_cons_invalid c rest hb]
        simp [scanLoop, hne, hd, hcpy, hmem, hb, hac]
      | true =>
        rw [acceptedPaths_cons_valid c rest hd hb, serialise_cons]
        by_cases hg : st.serializedPlaylist.length + c.path.length + 2 ≥ st.allocCount * allocSize
        · obtain ⟨ac, hac⟩ := ih hrest (i + 1)
            (st.append ((st.allocCount + 1) % 65536) caching c.path)
          refine ⟨ac, ?_⟩
          simp only [scanLoop, hne, hd, hcpy, hmem, hb, hg, Bool.and_false, if_true,
            Bool.false_eq_true, if_false, hac]
          cases caching <;> simp [ScanState.append, stringDelimiter]
        · obtain ⟨ac, hac⟩ := ih hrest (i + 1) (st.append st.allocCount caching c.path)
          refine ⟨ac, ?_⟩
          simp only [scanLoop, hne, hd, hcpy, hmem, hb, hg, Bool.and_false, if_true,
            Bool.false_eq_true, if_false, hac]
          cases caching <;> simp [ScanState.append, stringDelimiter]

theorem acceptedPaths_mem (children : List Child) (e : CStr) (h : e ∈ acceptedPaths children) :
    ∃ c ∈ children, c.path = e ∧ c.isDir = false ∧ fileValid true c.path = some true := by
  simp only [acceptedPaths, List.mem_map, List.mem_filter, Bool.and_eq_true,
    Bool.not_eq_true', beq_iff_eq] at h
  obtain ⟨c, ⟨hc, hd, hv⟩, rfl⟩ := h
  exact ⟨c, hc, rfl, hd, hv⟩

theorem directoryMode_accepts (env : Env) (fs : FS) (fileName : CStr) (_playMode : PlayMode)
    (children : List Child) (hmem : ∀ site, env.mem site = true)
    (hpaths : ∀ c ∈ children, '/' ∈ c.path ∧ c.path.length < 255 ∧ '#' ∉ c.path) :
    directoryMode env fs fileName _playMode children = some
      { files := some { slots := (acceptedPaths children).length,
                        count := some (snprintf5 (acceptedPaths children).length),
                        entries := (acceptedPaths children).map some },
        fs := if enablePlaylistCaching env _playMode &&
                env.openForWrite (cacheFileName env fileName)
              then fs.write (cacheFileName env fileName) (serialise (acceptedPaths children))
              else fs,
        indicatedError := false, enumerated := true } := by
  have hacc : ∀ e ∈ acceptedPaths children, e ≠ [] ∧ '#' ∉ e := by
    intro e he
    obtain ⟨c, hc, rfl, -, -⟩ := acceptedPaths_mem children e he
    have := hpaths c hc
    exact ⟨fun h0 => by rw [h0] at this; simp at this, this.2.2⟩
  obtain ⟨ac, hac⟩ := scanLoop_accepts env hmem (if env.psram then 65535 else 4096)
    (enablePlaylistCaching env _playMode && env.openForWrite (cacheFileName env fileName))
    children (fun c hc => ⟨(hpaths c hc).1, (hpaths c hc).2.1⟩) 0
    { serializedPlaylist := [], allocCount := 1, cacheOut := [] }
  simp only [directoryMode, hmem, if_true, hac, List.nil_append,
    splitPlaylist_serialise env.mem hmem _ hacc, Option.map_some']
  cases enablePlaylistCaching env _playMode && env.openForWrite (cacheFileName env fileName) <;>
    simp

theorem returnPlaylist_accepts (env : Env) (fs : FS) (fileName : CStr) (_playMode : PlayMode)
    (children : List Child)
    (hmem : ∀ site, env.mem site = true)
    (hdir : fs.find fileName = some (Node.dir children))
    (hmode : _playMode ≠ PlayMode.LOCAL_M3U)
    (hcache : readCacheFile env fs fileName _playMode = some (false, none))
    (hpaths : ∀ c ∈ children, '/' ∈ c.path ∧ c.path.length < 255 ∧ '#' ∉ c.path) :
    SdCard_ReturnPlaylist env fs fileName _playMode = some
      { files := some { slots := (acceptedPaths children).length,
                        count := some (snprintf5 (acceptedPaths children).length),
                        entries := (acceptedPaths children).map some },
        fs := if enablePlaylistCaching env _playMode &&
                env.openForWrite (cacheFileName env fileName)
              then fs.write (cacheFileName env fileName) (serialise (acceptedPaths children))
              else fs,
        indicatedError := false, enumerated := true } := by
  have h : SdCard_ReturnPlaylist env fs fileName _playMode =
      directoryMode env fs fileName _playMode children := by
    simp only [SdCard_ReturnPlaylist, hdir, hcache, hmode, if_false, Bool.not_false, if_true,
      Node.isDirectory, Bool.not_true, Bool.false_eq_true, Node.children]
  rw [h, directoryMode_accepts env fs fileName _playMode children hmem hpaths]

theorem readCacheFile_single (env : Env) (fs : FS) (fileName : CStr) (_playMode : PlayMode)
    (h : _playMode = PlayMode.SINGLE_TRACK ∨ _playMode = PlayMode.SINGLE_TRACK_LOOP) :
    readCacheFile env fs fileName _playMode = some (false, none) := by
  rcases h with h | h <;> simp [readCacheFile, h]

theorem acceptedPaths_all (children : List Child)
    (h : ∀ c ∈ children, c.isDir = false ∧ fileValid true c.path = some true) :
    acceptedPaths children = children.map Child.path := by
  induction children with
  | nil => rfl
  | cons c rest ih =>
    have hc := h c (by simp)
    rw [acceptedPaths_cons_valid c rest hc.1 hc.2, ih (fun x hx => h x (by simp [hx]))]
    rfl

theorem digitChar_plain : ∀ d, d < 10 →
    Nat.digitChar d ≠ '/' ∧ Nat.digitChar d ≠ '#' ∧ Nat.digitChar d ≠ '.' := by
  decide

theorem digitChar_injective : ∀ a, a < 10 → ∀ b, b < 10 →
    Nat.digitChar a = Nat.digitChar b → a = b := by
  decide

theorem numberedPath_valid (i : Nat) :
    '/' ∈ numberedPath i ∧ (numberedPath i).length < 255 ∧ '#' ∉ numberedPath i ∧
      fileValid true (numberedPath i) = some true := by
  have h3 := digitChar_plain (i / 1000 % 10) (Nat.mod_lt _ (by decide))
  have h2 := digitChar_plain (i / 100 % 10) (Nat.mod_lt _ (by decide))
  have h1 := digitChar_plain (i / 10 % 10) (Nat.mod_lt _ (by decide))
  have h0 := digitChar_plain (i % 10) (Nat.mod_lt _ (by decide))
  refine ⟨by simp [numberedPath], by simp [numberedPath], ?_, ?_⟩
  · simp [numberedPath, Ne.symm h3.2.1, Ne.symm h2.2.1, Ne.symm h1.2.1, Ne.symm h0.2.1]
  · have hseg : '/' ∉ [Nat.digitChar (i / 1000 % 10), Nat.digitChar (i / 100 % 10),
        Nat.digitChar (i / 10 % 10), Nat.digitChar (i % 10)] ++ ".mp3".toList := by
      simp [Ne.symm h3.1, Ne.symm h2.1, Ne.symm h1.1, Ne.symm h0.1]
    have hp : numberedPath i = "/many".toList ++ '/' ::
        ([Nat.digitChar (i / 1000 % 10), Nat.digitChar (i / 100 % 10),
          Nat.digitChar (i / 10 % 10), Nat.digitChar (i % 10)] ++ ".mp3".toList) := by
      simp [numberedPath]
    rw [hp, fileValid_of_last_slash _ _ hseg]
    simp only [Option.some.injEq, decide_eq_true_eq]
    refine ⟨by simpa using h3.2.2, ".mp3".toList, by simp [extensions], ?_⟩
    have hm : ".mp3".toList.map Char.toLower = ".mp3".toList := by decide
    refine ⟨("/many".toList ++ '/' :: [Nat.digitChar (i / 1000 % 10),
      Nat.digitChar (i / 100 % 10), Nat.digitChar (i / 10 % 10),
      Nat.digitChar (i % 10)]).map Char.toLower, ?_⟩
    rw [← hm, ← List.map_append]
    simp

theorem numberedPath_injective (i j : Nat) (hi : i < 10000) (hj : j < 10000)
    (h : numberedPath i = numberedPath j) : i = j := by
  simp only [numberedPath, List.append_cancel_left_eq, List.append_cancel_right_eq,
    List.cons.injEq, and_true] at h
  obtain ⟨h3, h2, h1, h0⟩ := h
  have e3 := digitChar_injective _ (Nat.mod_lt _ (by decide)) _ (Nat.mod_lt _ (by decide)) h3
  have e2 := digitChar_injective _ (Nat.mod_lt _ (by decide)) _ (Nat.mod_lt _ (by decide)) h2
  have e1 := digitChar_injective _ (Nat.mod_lt _ (by decide)) _ (Nat.mod_lt _ (by decide)) h1
  have e0 := digitChar_injective _ (Nat.mod_lt _ (by decide)) _ (Nat.mod_lt _ (by decide)) h0
  omega

/-- C1 (failing input): the directory `/many` holds the ten thousand files
`/many/0000.mp3` to `/many/9999.mp3`; their paths differ from one another, are shorter
than 255 characters, contain no '#' and pass `fileValid`.  On a board with PSRAM, in
play mode SINGLE_TRACK (no cache file is read), the call returns the ten thousand paths
in enumeration order, and the count element is "1000": read as a decimal number the
reported count is 1000, not the length 10000 of the playlist. -/
theorem scan_count_truncated :
    (numberedChildren.map Child.path).Nodup ∧
      (∀ c ∈ numberedChildren, c.isDir = false ∧ '/' ∈ c.path ∧ c.path.length < 255 ∧
        '#' ∉ c.path ∧ fileValid true c.path = some true) ∧
      ∃ out p, SdCard_ReturnPlaylist psramEnv numberedCard "/many".toList
          PlayMode.SINGLE_TRACK = some out ∧
        out.files = some p ∧ out.enumerated = true ∧
        p.entries = numberedChildren.map (fun c => some c.path) ∧
        p.entries.length = 10000 ∧
        p.count = some "1000".toList ∧ strtoul "1000".toList = 1000 := by
  have hall : ∀ c ∈ numberedChildren, c.isDir = false ∧ '/' ∈ c.path ∧ c.path.length < 255 ∧
      '#' ∉ c.path ∧ fileValid true c.path = some true := by
    intro c hc
    obtain ⟨i, -, rfl⟩ := List.mem_map.mp hc
    have := numberedPath_valid i
    exact ⟨rfl, this.1, this.2.1, this.2.2.1, this.2.2.2⟩
  have hacc : acceptedPaths numberedChildren = numberedChildren.map Child.path :=
    acceptedPaths_all _ (fun c hc => ⟨(hall c hc).1, (hall c hc).2.2.2.2⟩)
  have hlen : (numberedChildren.map Child.path).length = 10000 := by
    simp [numberedChildren]
  have h := returnPlaylist_accepts psramEnv numberedCard "/many".toList PlayMode.SINGLE_TRACK
    numberedChildren (fun _ => rfl) rfl (by decide)
    (readCacheFile_single _ _ _ _ (Or.inl rfl))
    (fun c hc => ⟨(hall c hc).2.1, (hall c hc).2.2.1, (hall c hc).2.2.2.1⟩)
  rw [hacc, hlen] at h
  refine ⟨?_, hall, _, _, h, rfl, rfl, ?_, ?_, by decide, by decide⟩
  · simp only [numberedChildren, List.map_map]
    refine List.Nodup.map_on ?_ (List.nodup_range 10000)
    intro i hi j hj hij
    exact numberedPath_injective i j (List.mem_range.mp hi) (List.mem_range.mp hj) hij
  · simp
  · simpa using hlen

/-! ### The m3u parser -/

theorem splitLines_ne_nil (t : List Char) : splitLines t ≠ [] := by
  cases t with
  | nil => simp [splitLines]
  | cons c cs =>
    unfold splitLines
    split
    · simp
    · split <;> simp

theorem splitLines_newline (c : Char) (t : List Char) (hc : c = '\n' ∨ c = '\r') :
    splitLines (c :: t) = [] :: splitLines t := by
  simp [splitLines, hc]

theorem splitLines_other (c : Char) (t : List Char) (hc : ¬ (c = '\n' ∨ c = '\r')) :
    ∃ l ls, splitLines t = l :: ls ∧ splitLines (c :: t) = (c :: l) :: ls := by
  cases h : splitLines t with
  | nil => exact absurd h (splitLines_ne_nil t)
  | cons l ls =>
    refine ⟨l, ls, rfl, ?_⟩
    rw [splitLines, if_neg hc, h]

theorem splitLines_append (p t : List Char) (hp : ∀ c ∈ p, ¬ (c = '\n' ∨ c = '\r')) :
    ∃ l ls, splitLines t = l :: ls ∧ splitLines (p ++ t) = (p ++ l) :: ls := by
  induction p with
  | nil =>
    cases h : splitLines t with
    | nil => exact absurd h (splitLines_ne_nil t)
    | cons l ls => exact ⟨l, ls, rfl, by simp [h]⟩
  | cons c cs ih =>
    obtain ⟨l, ls, h1, h2⟩ := ih (fun x hx => hp x (by simp [hx]))
    obtain ⟨l', ls', h3, h4⟩ := splitLines_other c (cs ++ t) (hp c (by simp))
    rw [h2] at h3
    injection h3 with h5 h6
    subst h5 h6
    exact ⟨l, ls, h1, by simpa using h4⟩

theorem m3uEntries_line (p : List Char) (c : Char) (t : List Char)
    (hp : ∀ x ∈ p, ¬ (x = '\n' ∨ x = '\r')) (hh : '#' ∉ p) (hc : c = '\n' ∨ c = '\r') :
    m3uEntries (p ++ c :: t) = (if p = [] then [] else [p]) ++ m3uEntries t := by
  obtain ⟨l, ls, h1, h2⟩ := splitLines_append p (c :: t) hp
  rw [splitLines_newline c t hc] at h1
  injection h1 with h3 h4
  subst h3 h4
  simp only [m3uEntries, h2, List.append_nil, List.filter_cons]
  cases p with
  | nil => simp
  | cons a as =>
    have : a ≠ '#' := fun he => hh (by simp [he])
    simp [this]

theorem m3uEntries_last (p : List Char) (hp : ∀ x ∈ p, ¬ (x = '\n' ∨ x = '\r'))
    (hh : '#' ∉ p) : m3uEntries p = if p = [] then [] else [p] := by
  obtain ⟨l, ls, h1, h2⟩ := splitLines_append p [] hp
  simp only [splitLines] at h1
  injection h1 with h3 h4
  subst h3 h4
  simp only [List.append_nil] at h2
  simp only [m3uEntries, h2, List.filter_cons]
  cases p with
  | nil => simp
  | cons a as =>
    have : a ≠ '#' := fun he => hh (by simp [he])
    simp [this]

theorem m3uEntries_newline (c : Char) (t : List Char) (hc : c = '\n' ∨ c = '\r') :
    m3uEntries (c :: t) = m3uEntries t := by
  simp [m3uEntries, splitLines_newline c t hc, List.filter_cons]

theorem m3uEntries_comment_end (c : Char) (t : List Char) (hc : c = '\n' ∨ c = '\r') :
    m3uEntries ('#' :: c :: t) = m3uEntries t := by
  have h : splitLines ('#' :: c :: t) = ['#'] :: splitLines t := by
    rw [splitLines, if_neg (by decide), splitLines_newline c t hc]
  simp [m3uEntries, h, List.filter_cons]

theorem m3uEntries_comment_skip (c : Char) (t : List Char) (hc : ¬ (c = '\n' ∨ c = '\r')) :
    m3uEntries ('#' :: c :: t) = m3uEntries ('#' :: t) := by
  obtain ⟨l, ls, h1, h2⟩ := splitLines_other c t hc
  have h3 : splitLines ('#' :: c :: t) = ('#' :: c :: l) :: ls := by
    rw [splitLines, if_neg (by decide), h2]
  have h4 : splitLines ('#' :: t) = ('#' :: l) :: ls := by
    rw [splitLines, if_neg (by decide), h1]
  simp [m3uEntries, h3, h4, List.filter_cons]

theorem m3uEntries_comment_nil : m3uEntries ['#'] = [] := by decide

theorem stripTrailingDelimiter_open (done : List CStr) (p : CStr) (hh : '#' ∉ p) :
    stripTrailingDelimiter (serialise done ++ '#' :: p) =
      serialise (done ++ if p = [] then [] else [p]) := by
  unfold stripTrailingDelimiter
  by_cases hp : p = []
  · subst hp
    simp [List.getLast?_append, List.dropLast_append_cons]
  · have hl : (serialise done ++ '#' :: p).getLast? = p.getLast? := by
      cases p with
      | nil => exact absurd rfl hp
      | cons a as =>
        simp only [List.getLast?_append, List.getLast?_cons_cons]
        cases h : (a :: as).getLast? with
        | none => simp at h
        | some x => simp
    have hne : p.getLast? ≠ some '#' := by
      intro he
      exact hh (List.mem_of_getLast?_eq_some he)
    rw [hl, if_neg hne, if_neg hp, serialise_append, serialise_cons, serialise_nil]
    simp

theorem m3uLoop_data (env : Env) (hmem : ∀ site, env.mem site = true) (a : Nat) (c : Char)
    (t s : List Char) (lb : Char) (ac : Nat) (h1 : c ≠ '#') (h2 : ¬ (c = '\n' ∨ c = '\r')) :
    ∃ ac', m3uLoop env a (c :: t) false
        { serializedPlaylist := s, lastBuf := lb, allocCount := ac } =
      m3uLoop env a t false { serializedPlaylist := s ++ [c], lastBuf := c, allocCount := ac' } := by
  have h3 : c ≠ '\n' ∧ c ≠ '\r' := not_or.mp h2
  refine ⟨if decide (s.length + 1 ≥ ac * a) then (ac + 1) % 65536 else ac, ?_⟩
  rw [m3uLoop]
  simp only [h1, if_false, hmem, Bool.not_true, Bool.and_false, Bool.false_eq_true, h3,
    ne_eq, not_false_eq_true, and_self, if_true]

theorem m3uLoop_newline (env : Env) (hmem : ∀ site, env.mem site = true) (a : Nat) (c : Char)
    (t s : List Char) (lb : Char) (ac : Nat) (h2 : c = '\n' ∨ c = '\r') :
    ∃ ac', m3uLoop env a (c :: t) false
        { serializedPlaylist := s, lastBuf := lb, allocCount := ac } =
      m3uLoop env a t false
        (if lb ≠ '#' then { serializedPlaylist := s ++ ['#'], lastBuf := '#', allocCount := ac' }
         else { serializedPlaylist := s, lastBuf := lb, allocCount := ac' }) := by
  have h1 : c ≠ '#' := by rcases h2 with h | h <;> (subst h; decide)
  have h3 : ¬ (c ≠ '\n' ∧ c ≠ '\r') := by
    rintro ⟨h4, h5⟩
    rcases h2 with h | h
    · exact h4 h
    · exact h5 h
  refine ⟨if decide (s.length + 1 ≥ ac * a) then (ac + 1) % 65536 else ac, ?_⟩
  rw [m3uLoop]
  simp only [h1, if_false, hmem, Bool.not_true, Bool.and_false, Bool.false_eq_true, h3]
  split <;> rfl

theorem m3uLoop_tidy (env : Env) (hmem : ∀ site, env.mem site = true) (allocSize : Nat)
    (text : List Char) :
    ∀ (pos : M3uPos) (done : List CStr) (p : CStr) (lb : Char) (ac : Nat),
      m3uTidy pos text = true →
      (lb = '#' ↔ p = []) → '#' ∉ p → (∀ x ∈ p, ¬ (x = '\n' ∨ x = '\r')) →
      (pos ≠ M3uPos.inEntry → p = []) →
      ∃ st, m3uLoop env allocSize text pos.skipping
              { serializedPlaylist := serialise done ++ '#' :: p, lastBuf := lb,
                allocCount := ac } = some st ∧
        stripTrailingDelimiter st.serializedPlaylist =
          serialise (done ++ m3uRemaining pos p text) ∧
        ∀ e ∈ m3uRemaining pos p text, '#' ∉ e := by
  induction text with
  | nil =>
    intro pos done p lb ac _ _ hh hnl hpos
    refine ⟨{ serializedPlaylist := serialise done ++ '#' :: p, lastBuf := lb,
              allocCount := ac }, by simp [m3uLoop], ?_, ?_⟩
    · rw [stripTrailingDelimiter_open done p hh]
      cases pos
      · simp [m3uRemaining, m3uEntries_last p hnl hh]
      · simp [m3uRemaining, m3uEntries_last p hnl hh]
      · simp [m3uRemaining, m3uEntries_comment_nil, hpos (by decide)]
      · have : m3uEntries [] = [] := by decide
        simp [m3uRemaining, this, hpos (by decide)]
    · intro e he
      cases pos
      · simp only [m3uRemaining, List.append_nil, m3uEntries_last p hnl hh] at he
        split at he
        · simp at he
        · simp only [List.mem_singleton] at he; exact he ▸ hh
      · simp only [m3uRemaining, List.append_nil, m3uEntries_last p hnl hh] at he
        split at he
        · simp at he
        · simp only [List.mem_singleton] at he; exact he ▸ hh
      · simp [m3uRemaining, m3uEntries_comment_nil] at he
      · have : m3uEntries [] = [] := by decide
        simp [m3uRemaining, this] at he
  | cons c t ih =>
    intro pos done p lb ac htidy hlb hh hnl hpos
    -- the step of a reader outside a comment, on a character other than '#'
    have outside : ∀ (pos' : M3uPos), pos'.skipping = false → c ≠ '#' →
        (if c = '\n' ∨ c = '\r' then m3uTidy M3uPos.lineStart t
          else m3uTidy M3uPos.inEntry t) = true →
        ∃ st, m3uLoop env allocSize (c :: t) pos'.skipping
              { serializedPlaylist := serialise done ++ '#' :: p, lastBuf := lb,
                allocCount := ac } = some st ∧
          stripTrailingDelimiter st.serializedPlaylist =
            serialise (done ++ m3uEntries (p ++ c :: t)) ∧
          ∀ e ∈ m3uEntries (p ++ c :: t), '#' ∉ e := by
      intro pos' hs hc ht
      rw [hs]
      by_cases hn : c = '\n' ∨ c = '\r'
      · rw [if_pos hn] at ht
        obtain ⟨ac', hstep⟩ := m3uLoop_newline env hmem allocSize c t
          (serialise done ++ '#' :: p) lb ac hn
        rw [hstep, m3uEntries_line p c t hnl hh hn]
        by_cases hp : p = []
        · subst hp
          have hlb' : lb = '#' := hlb.mpr rfl
          obtain ⟨st, h1, h2, h3⟩ := ih M3uPos.lineStart done [] lb ac' ht
            (by simp [hlb']) (by simp) (by simp) (fun _ => rfl)
          refine ⟨st, ?_, ?_, ?_⟩
          · simpa [hlb', M3uPos.skipping] using h1
          · simpa [m3uRemaining] using h2
          · simpa [m3uRemaining] using h3
        · have hlb' : lb ≠ '#' := fun he => hp (hlb.mp he)
          obtain ⟨st, h1, h2, h3⟩ := ih M3uPos.lineStart (done ++ [p]) [] '#' ac' ht
            (by simp) (by simp) (by simp) (fun _ => rfl)
          refine ⟨st, ?_, ?_, ?_⟩
          · rw [if_pos hlb']
            simpa [M3uPos.skipping, serialise_append, serialise_cons, serialise_nil] using h1
          · simpa [m3uRemaining, hp] using h2
          · intro e he
            simp only [if_neg hp, List.singleton_append, List.mem_cons] at he
            rcases he with he | he
            · exact he ▸ hh
            · exact h3 e (by simpa [m3uRemaining] using he)
      · rw [if_neg hn] at ht
        obtain ⟨ac', hstep⟩ := m3uLoop_data env hmem allocSize c t
          (serialise done ++ '#' :: p) lb ac hc hn
        rw [hstep]
        obtain ⟨st, h1, h2, h3⟩ := ih M3uPos.inEntry done (p ++ [c]) c ac' ht
          (by simp [hc]) (by simp [hh, Ne.symm hc])
          (by
            intro x hx
            rcases List.mem_append.mp hx with hx | hx
            · exact hnl x hx
            · simp only [List.mem_singleton] at hx; exact hx ▸ hn)
          (fun h => absurd rfl h)
        refine ⟨st, ?_, ?_, ?_⟩
        · simpa [M3uPos.skipping] using h1
        · simpa [m3uRemaining] using h2
        · simpa [m3uRemaining] using h3
    cases pos with
    | lineStart =>
      have hp : p = [] := hpos (by decide)
      by_cases hc : c = '#'
      · subst hc hp
        simp only [m3uTidy, if_true] at htidy
        obtain ⟨st, h1, h2, h3⟩ := ih M3uPos.inComment done [] lb ac htidy hlb hh hnl
          (fun _ => rfl)
        refine ⟨st, ?_, ?_, ?_⟩
        · simpa [m3uLoop, M3uPos.skipping] using h1
        · simpa [m3uRemaining] using h2
        · simpa [m3uRemaining] using h3
      · simp only [m3uTidy, hc, if_false] at htidy
        exact outside M3uPos.lineStart rfl hc htidy
    | inEntry =>
      by_cases hc : c = '#'
      · simp [m3uTidy, hc] at htidy
      · simp only [m3uTidy, hc, if_false] at htidy
        exact outside M3uPos.inEntry rfl hc htidy
    | inComment =>
      have hp : p = [] := hpos (by decide)
      subst hp
      by_cases h1 : c = '\n'
      · subst h1
        simp only [m3uTidy, if_true] at htidy
        obtain ⟨st, h1, h2, h3⟩ := ih M3uPos.lineStart done [] lb ac htidy hlb hh hnl
          (fun _ => rfl)
        refine ⟨st, ?_, ?_, ?_⟩
        · simpa [m3uLoop, M3uPos.skipping] using h1
        · simpa [m3uRemaining, m3uEntries_comment_end] using h2
        · simpa [m3uRemaining, m3uEntries_comment_end] using h3
      · by_cases h2 : c = '\r'
        · subst h2
          simp only [m3uTidy, h1, if_false, if_true] at htidy
          obtain ⟨st, h1, h2, h3⟩ := ih M3uPos.afterCR done [] lb ac htidy hlb hh hnl
            (fun _ => rfl)
          refine ⟨st, ?_, ?_, ?_⟩
          · simpa [m3uLoop, M3uPos.skipping] using h1
          · simpa [m3uRemaining, m3uEntries_comment_end] using h2
          · simpa [m3uRemaining, m3uEntries_comment_end] using h3
        · simp only [m3uTidy, h1, h2, if_false] at htidy
          have hn : ¬ (c = '\n' ∨ c = '\r') := not_or.mpr ⟨h1, h2⟩
          obtain ⟨st, h3, h4, h5⟩ := ih M3uPos.inComment done [] lb ac htidy hlb hh hnl
            (fun _ => rfl)
          refine ⟨st, ?_, ?_, ?_⟩
          · have hb : (c != '\n') = true := by simp [h1]
            simpa [m3uLoop, M3uPos.skipping, hb] using h3
          · simpa [m3uRemaining, m3uEntries_comment_skip c t hn] using h4
          · simpa [m3uRemaining, m3uEntries_comment_skip c t hn] using h5
    | afterCR =>
      have hp : p = [] := hpos (by decide)
      subst hp
      by_cases h1 : c = '\n'
      · subst h1
        simp only [m3uTidy, if_true] at htidy
        obtain ⟨st, h1, h2, h3⟩ := ih M3uPos.lineStart done [] lb ac htidy hlb hh hnl
          (fun _ => rfl)
        refine ⟨st, ?_, ?_, ?_⟩
        · simpa [m3uLoop, M3uPos.skipping] using h1
        · simpa [m3uRemaining, m3uEntries_newline] using h2
        · simpa [m3uRemaining, m3uEntries_newline] using h3
      · by_cases h2 : c = '\r'
        · subst h2
          simp only [m3uTidy, h1, if_false, if_true] at htidy
          obtain ⟨st, h1, h2, h3⟩ := ih M3uPos.afterCR done [] lb ac htidy hlb hh hnl
            (fun _ => rfl)
          refine ⟨st, ?_, ?_, ?_⟩
          · simpa [m3uLoop, M3uPos.skipping] using h1
          · simpa [m3uRemaining, m3uEntries_newline] using h2
          · simpa [m3uRemaining, m3uEntries_newline] using h3
        · by_cases h3 : c = '#'
          · subst h3
            simp only [m3uTidy, h1, h2, if_false, if_true] at htidy
            obtain ⟨st, h3, h4, h5⟩ := ih M3uPos.inComment done [] lb ac htidy hlb hh hnl
              (fun _ => rfl)
            refine ⟨st, ?_, ?_, ?_⟩
            · simpa [m3uLoop, M3uPos.skipping] using h3
            · simpa [m3uRemaining] using h4
            · simpa [m3uRemaining] using h5
          · simp [m3uTidy, h1, h2, h3] at htidy

theorem mem_of_mem_splitLines (t : List Char) :
    ∀ l ∈ splitLines t, ∀ c ∈ l, c ∈ t := by
  induction t with
  | nil => simp [splitLines]
  | cons a as ih =>
    intro l hl c hc
    by_cases ha : a = '\n' ∨ a = '\r'
    · rw [splitLines_newline a as ha] at hl
      rcases List.mem_cons.mp hl with h | h
      · subst h; simp at hc
      · exact List.mem_cons_of_mem _ (ih l h c hc)
    · obtain ⟨l', ls, h1, h2⟩ := splitLines_other a as ha
      rw [h2] at hl
      rw [h1] at ih
      rcases List.mem_cons.mp hl with h | h
      · subst h
        rcases List.mem_cons.mp hc with h' | h'
        · simp [h']
        · exact List.mem_cons_of_mem _ (ih l' (by simp) c h')
      · exact List.mem_cons_of_mem _ (ih l (by simp [h]) c hc)

theorem m3uEntries_mem (text : List Char) (e : CStr) (he : e ∈ m3uEntries text) :
    e ≠ [] ∧ ∀ c ∈ e, c ∈ text := by
  simp only [m3uEntries, List.mem_filter, Bool.and_eq_true, Bool.not_eq_true',
    List.isEmpty_eq_false] at he
  exact ⟨he.2.1, mem_of_mem_splitLines text e he.1⟩

theorem readCacheFile_some (env : Env) (hmem : ∀ site, env.mem site = true) (fs : FS)
    (fileName : CStr) (_playMode : PlayMode) :
    ∃ r, readCacheFile env fs fileName _playMode = some r := by
  unfold readCacheFile
  simp only [hmem, if_true]
  split
  · split
    · split
      · split <;> exact ⟨_, rfl⟩
      · exact ⟨_, rfl⟩
    · exact ⟨_, rfl⟩
  · exact ⟨_, rfl⟩

theorem m3uLoop_step (env : Env) (a : Nat) (c : Char) (t : List Char) (st : M3uState)
    (hc : c ≠ '#') :
    m3uLoop env a (c :: t) false st = none ∨
      ∃ ac', m3uLoop env a (c :: t) false st = m3uLoop env a t false
        (if c ≠ '\n' ∧ c ≠ '\r' then
           { serializedPlaylist := st.serializedPlaylist ++ [c], lastBuf := c,
             allocCount := ac' }
         else if st.lastBuf ≠ '#' then
           { serializedPlaylist := st.serializedPlaylist ++ ['#'], lastBuf := '#',
             allocCount := ac' }
         else { serializedPlaylist := st.serializedPlaylist, lastBuf := st.lastBuf,
                allocCount := ac' }) := by
  rw [m3uLoop, if_neg hc]
  by_cases hg : st.serializedPlaylist.length + 1 ≥ st.allocCount * a
  · cases hm : env.mem (AllocSite.m3uGrow ((st.allocCount + 1) % 65536))
    · left
      simp [hg, hm]
    · right
      refine ⟨(st.allocCount + 1) % 65536, ?_⟩
      simp only [hg, hm, decide_True, if_true, Bool.not_true, Bool.and_false,
        Bool.false_eq_true, if_false]
      split
      · rfl
      · split <;> rfl
  · right
    refine ⟨st.allocCount, ?_⟩
    simp only [hg, decide_False, Bool.false_and, Bool.false_eq_true, if_false]
    split
    · rfl
    · split <;> rfl

theorem m3uLoop_written (env : Env) (allocSize : Nat) (text : List Char) :
    ∀ (skip : Bool) (st st' : M3uState),
      st.serializedPlaylist.getLast? = some st.lastBuf →
      m3uLoop env allocSize text skip st = some st' →
      st'.serializedPlaylist.getLast? = some st'.lastBuf ∧
        st'.serializedPlaylist.length ≤ st.serializedPlaylist.length + text.length := by
  induction text with
  | nil =>
    intro skip st st' h hloop
    simp only [m3uLoop, Option.some.injEq] at hloop
    subst hloop
    exact ⟨h, by simp⟩
  | cons c t ih =>
    intro skip st st' h hloop
    simp only [List.length_cons]
    cases skip with
    | true =>
      rw [m3uLoop] at hloop
      have := ih _ st st' h hloop
      exact ⟨this.1, by omega⟩
    | false =>
      by_cases hc : c = '#'
      · rw [m3uLoop, if_pos hc] at hloop
        have := ih _ st st' h hloop
        exact ⟨this.1, by omega⟩
      · rcases m3uLoop_step env allocSize c t st hc with hstep | ⟨ac', hstep⟩
        · rw [hstep] at hloop
          exact absurd hloop (by simp)
        · rw [hstep] at hloop
          have := ih _ _ st' (by
            split
            · simp
            · split
              · simp
              · exact h) hloop
          refine ⟨this.1, le_trans this.2 ?_⟩
          split
          · simp only [List.length_append, List.length_singleton]; omega
          · split
            · simp only [List.length_append, List.length_singleton]; omega
            · simp only; omega

theorem m3uLoop_closed (env : Env) (allocSize : Nat) (text : List Char) :
    ∀ (pos : M3uPos) (st st' : M3uState),
      m3uTidy pos text = true →
      (pos ≠ M3uPos.inEntry → st.lastBuf = '#') →
      ((text = [] ∧ pos ≠ M3uPos.inEntry) ∨
        text.getLast? = some '\n' ∨ text.getLast? = some '\r') →
      m3uLoop env allocSize text pos.skipping st = some st' → st'.lastBuf = '#' := by
  induction text with
  | nil =>
    intro pos st st' _ hlb hend hloop
    simp only [m3uLoop, Option.some.injEq] at hloop
    subst hloop
    rcases hend with ⟨-, h⟩ | h | h
    · exact hlb h
    · simp at h
    · simp at h
  | cons c t ih =>
    intro pos st st' htidy hlb hend hloop
    have hend' : ∀ pos' : M3uPos, ((c = '\n' ∨ c = '\r') → pos' ≠ M3uPos.inEntry) →
        ((t = [] ∧ pos' ≠ M3uPos.inEntry) ∨
          t.getLast? = some '\n' ∨ t.getLast? = some '\r') := by
      intro pos' hp
      cases t with
      | nil =>
        left
        refine ⟨rfl, hp ?_⟩
        rcases hend with ⟨h, -⟩ | h | h
        · simp at h
        · left; simpa using h
        · right; simpa using h
      | cons b bs =>
        right
        rcases hend with ⟨h, -⟩ | h | h
        · simp at h
        · left; simpa [List.getLast?_cons_cons] using h
        · right; simpa [List.getLast?_cons_cons] using h
    have outside : c ≠ '#' →
        (if c = '\n' ∨ c = '\r' then m3uTidy M3uPos.lineStart t
          else m3uTidy M3uPos.inEntry t) = true →
        m3uLoop env allocSize (c :: t) false st = some st' → st'.lastBuf = '#' := by
      intro hc ht hl
      rcases m3uLoop_step env allocSize c t st hc with hstep | ⟨ac', hstep⟩
      · rw [hstep] at hl
        exact absurd hl (by simp)
      · rw [hstep] at hl
        by_cases hn : c = '\n' ∨ c = '\r'
        · have h3 : ¬ (c ≠ '\n' ∧ c ≠ '\r') := by
            rintro ⟨h4, h5⟩
            rcases hn with h | h
            · exact h4 h
            · exact h5 h
          rw [if_pos hn] at ht
          rw [if_neg h3] at hl
          refine ih M3uPos.lineStart _ st' ht (fun _ => ?_)
            (hend' M3uPos.lineStart (fun _ => by decide)) hl
          split
          · rfl
          · rename_i hlast
            exact not_not.mp hlast
        · rw [if_neg hn] at ht
          rw [if_pos (not_or.mp hn)] at hl
          exact ih M3uPos.inEntry _ st' ht (fun h => absurd rfl h)
            (hend' M3uPos.inEntry (fun h => absurd h hn)) hl
    cases pos with
    | lineStart =>
      by_cases hc : c = '#'
      · subst hc
        simp only [m3uTidy, if_true] at htidy
        rw [M3uPos.skipping, m3uLoop, if_pos rfl] at hloop
        exact ih M3uPos.inComment st st' htidy (fun _ => hlb (by decide))
          (hend' M3uPos.inComment (fun _ => by decide)) hloop
      · simp only [m3uTidy, hc, if_false] at htidy
        exact outside hc htidy hloop
    | inEntry =>
      by_cases hc : c = '#'
      · simp [m3uTidy, hc] at htidy
      · simp only [m3uTidy, hc, if_false] at htidy
        exact outside hc htidy hloop
    | inComment =>
      rw [M3uPos.skipping, m3uLoop] at hloop
      by_cases h1 : c = '\n'
      · subst h1
        simp only [m3uTidy, if_true] at htidy
        exact ih M3uPos.lineStart st st' htidy (fun _ => hlb (by decide))
          (hend' M3uPos.lineStart (fun _ => by decide)) (by simpa [M3uPos.skipping] using hloop)
      · have hb : (c != '\n') = true := by simp [h1]
        rw [hb] at hloop
        by_cases h2 : c = '\r'
        · subst h2
          simp only [m3uTidy, h1, if_false, if_true] at htidy
          exact ih M3uPos.afterCR st st' htidy (fun _ => hlb (by decide))
            (hend' M3uPos.afterCR (fun _ => by decide)) hloop
        · simp only [m3uTidy, h1, h2, if_false] at htidy
          exact ih M3uPos.inComment st st' htidy (fun _ => hlb (by decide))
            (hend' M3uPos.inComment (fun _ => by decide)) hloop
    | afterCR =>
      rw [M3uPos.skipping, m3uLoop] at hloop
      by_cases h1 : c = '\n'
      · subst h1
        simp only [m3uTidy, if_true] at htidy
        exact ih M3uPos.lineStart st st' htidy (fun _ => hlb (by decide))
          (hend' M3uPos.lineStart (fun _ => by decide)) (by simpa [M3uPos.skipping] using hloop)
      · have hb : (c != '\n') = true := by simp [h1]
        rw [hb] at hloop
        by_cases h2 : c = '\r'
        · subst h2
          simp only [m3uTidy, h1, if_false, if_true] at htidy
          exact ih M3uPos.afterCR st st' htidy (fun _ => hlb (by decide))
            (hend' M3uPos.afterCR (fun _ => by decide)) hloop
        · by_cases h3 : c = '#'
          · subst h3
            simp only [m3uTidy, h1, h2, if_false, if_true] at htidy
            exact ih M3uPos.inComment st st' htidy (fun _ => hlb (by decide))
              (hend' M3uPos.inComment (fun _ => by decide)) hloop
          · simp [m3uTidy, h1, h2, h3] at htidy

theorem parseM3u_returns (env : Env) (text : List Char) (st : M3uState)
    (hlist : env.mem AllocSite.m3uList = true)
    (hloop : m3uLoop env (if env.psram then 65535 else 1024) text false
      { serializedPlaylist := ['#'], lastBuf := '#', allocCount := 1 } = some st)
    (hterm : text.length + 1 < (if env.psram then 65535 else 1024) ∨
      (m3uTidy M3uPos.lineStart text = true ∧
        (text.getLast? = some '\n' ∨ text.getLast? = some '\r'))) :
    parseM3u env text = some (some (cstr (stripTrailingDelimiter st.serializedPlaylist))) := by
  have hw := m3uLoop_written env _ text false _ st (by rfl) hloop
  have hcheck : st.serializedPlaylist.getLast? = some '#' ∨
      Char.ofNat 0 ∈ st.serializedPlaylist ∨
      st.serializedPlaylist.length < (if env.psram then 65535 else 1024) := by
    rcases hterm with h | ⟨htidy, hlast⟩
    · right; right
      have := hw.2
      simp only [List.length_singleton] at this
      omega
    · left
      have := m3uLoop_closed env _ text M3uPos.lineStart _ st htidy (fun _ => rfl)
        (Or.inr hlast) hloop
      rw [hw.1, this]
  simp only [parseM3u, hlist, if_true, hloop, hcheck]

theorem parseM3u_tidy (env : Env) (hmem : ∀ site, env.mem site = true) (text : List Char)
    (hnul : Char.ofNat 0 ∉ text) (htidy : m3uTidy M3uPos.lineStart text = true)
    (hend : text.getLast? = some '\n' ∨ text.getLast? = some '\r' ∨
      text.length + 1 < (if env.psram then 65535 else 1024)) :
    parseM3u env text = some (some (serialise (m3uEntries text))) ∧
      ∀ e ∈ m3uEntries text, e ≠ [] ∧ '#' ∉ e := by
  obtain ⟨st, h1, h2, h3⟩ := m3uLoop_tidy env hmem (if env.psram then 65535 else 1024) text
    M3uPos.lineStart [] [] '#' 1 htidy (by simp) (by simp) (by simp) (fun _ => rfl)
  simp only [serialise_nil, List.nil_append, M3uPos.skipping, m3uRemaining] at h1 h2 h3
  have hn : Char.ofNat 0 ∉ serialise (m3uEntries text) :=
    nul_not_mem_serialise _ (fun e he hc => hnul ((m3uEntries_mem text e he).2 _ hc))
  have hterm : text.length + 1 < (if env.psram then 65535 else 1024) ∨
      (m3uTidy M3uPos.lineStart text = true ∧
        (text.getLast? = some '\n' ∨ text.getLast? = some '\r')) := by
    rcases hend with h | h | h
    · exact Or.inr ⟨htidy, Or.inl h⟩
    · exact Or.inr ⟨htidy, Or.inr h⟩
    · exact Or.inl h
  refine ⟨?_, fun e he => ⟨(m3uEntries_mem text e he).1, h3 e he⟩⟩
  rw [parseM3u_returns env text st (hmem _) h1 hterm, h2, cstr_eq_self _ hn]

theorem returnPlaylist_m3u (env : Env) (fs : FS) (fileName : CStr) (text : List Char)
    (hmem : ∀ site, env.mem site = true)
    (hfile : fs.find fileName = some (Node.file text))
    (hne : text ≠ [])
    (hnul : Char.ofNat 0 ∉ text)
    (htidy : m3uTidy M3uPos.lineStart text = true)
    (hend : text.getLast? = some '\n' ∨ text.getLast? = some '\r' ∨
      text.length + 1 < (if env.psram then 65535 else 1024)) :
    SdCard_ReturnPlaylist env fs fileName PlayMode.LOCAL_M3U = some
      { files := some { slots := (m3uEntries text).length,
                        count := some (snprintf5 (m3uEntries text).length),
                        entries := (m3uEntries text).map some },
        fs := fs, indicatedError := false, enumerated := false } := by
  obtain ⟨r, hr⟩ := readCacheFile_some env hmem fs fileName PlayMode.LOCAL_M3U
  obtain ⟨hparse, hent⟩ := parseM3u_tidy env hmem text hnul htidy hend
  have hsize : 0 < text.length := List.length_pos.mpr hne
  obtain ⟨rf, rc⟩ := r
  simp only [SdCard_ReturnPlaylist, hfile, hr, if_true, Node.isDirectory, Node.size,
    Node.bytes, Bool.not_false, Bool.true_and, gt_iff_lt, hsize, decide_True, hparse,
    splitPlaylist_serialise env.mem hmem _ hent, Option.map_some']

/-! ### The count element read back -/

theorem digitChar_value : ∀ d, d < 10 →
    (Nat.digitChar d).isDigit = true ∧ (Nat.digitChar d).toNat - '0'.toNat = d := by
  decide

theorem toDigitsCore_value (fuel : Nat) :
    ∀ (n k : Nat) (ds : List Char), n < fuel → n < 10 ^ (k + 1) →
      ∃ pre, Nat.toDigitsCore 10 fuel n ds = pre ++ ds ∧ pre.length ≤ k + 1 ∧
        (∀ c ∈ pre, c.isDigit = true) ∧
        pre.foldl (fun n c => 10 * n + (c.toNat - '0'.toNat)) 0 = n := by
  induction fuel with
  | zero => intro n k ds h; omega
  | succ f ih =>
    intro n k ds hf hk
    have hd := digitChar_value (n % 10) (Nat.mod_lt _ (by decide))
    rw [Nat.toDigitsCore]
    by_cases h0 : n / 10 = 0
    · simp only [h0, if_true]
      refine ⟨[Nat.digitChar (n % 10)], rfl, by simp, by simpa using hd.1, ?_⟩
      simp only [List.foldl_cons, List.foldl_nil, hd.2]
      omega
    · simp only [h0, if_false]
      cases k with
      | zero => omega
      | succ k =>
        have hk' : n / 10 < 10 ^ (k + 1) := by
          apply Nat.div_lt_of_lt_mul
          rw [pow_succ] at hk
          omega
        obtain ⟨pre, h1, h2, h3, h4⟩ := ih (n / 10) k (Nat.digitChar (n % 10) :: ds)
          (by omega) hk'
        refine ⟨pre ++ [Nat.digitChar (n % 10)], by simp [h1], by simp; omega, ?_, ?_⟩
        · intro c hc
          rcases List.mem_append.mp hc with h | h
          · exact h3 c h
          · simp only [List.mem_singleton] at h
            rw [h]; exact hd.1
        · rw [List.foldl_append, h4]
          simp only [List.foldl_cons, List.foldl_nil, hd.2]
          omega

theorem strtoul_snprintf5 (n : Nat) (h : n < 10000) : strtoul (snprintf5 n) = n := by
  obtain ⟨pre, h1, h2, h3, h4⟩ := toDigitsCore_value (n + 1) n 3 [] (by omega) (by simpa using h)
  have htake : snprintf5 n = pre := by
    rw [snprintf5, Nat.toDigits, h1, List.append_nil]
    exact List.take_of_length_le h2
  have hwhile : pre.takeWhile Char.isDigit = pre := by
    rw [List.takeWhile_eq_self_iff]
    exact h3
  rw [strtoul, htake, hwhile, h4]

/-! ### The m3u parser on whole files -/

/-- C4 (amended): for a non-empty m3u file without NUL bytes, with lines delimited by '\n'
or '\r', in which '#' occurs only in lines that begin with '#', in which a line beginning
with '#' that is ended by '\r' is followed, up to the next '\n', only by empty lines and
lines beginning with '#', whose last byte is a line terminator unless the whole text
fits the first chunk of the list buffer (fewer than 1023 bytes, 65534 with PSRAM), and
which holds fewer than 10000 lines that are non-empty and do not begin with '#': the call
in play mode LOCAL_M3U returns exactly these lines, each as one entry, in file order,
with as many slots as such lines, and the count element read as a decimal number is the
number of such lines. -/
theorem m3u_returns_entries (env : Env) (fs : FS) (fileName : CStr) (text : List Char)
    (hmem : ∀ site, env.mem site = true)
    (hfile : fs.find fileName = some (Node.file text))
    (hne : text ≠ [])
    (hnul : Char.ofNat 0 ∉ text)
    (htidy : m3uTidy M3uPos.lineStart text = true)
    (hend : text.getLast? = some '\n' ∨ text.getLast? = some '\r' ∨
      text.length + 1 < (if env.psram then 65535 else 1024))
    (hcount : (m3uEntries text).length < 10000) :
    ∃ out count, SdCard_ReturnPlaylist env fs fileName PlayMode.LOCAL_M3U = some out ∧
      out.files = some { slots := (m3uEntries text).length, count := some count,
                         entries := (m3uEntries text).map some } ∧
      strtoul count = (m3uEntries text).length ∧
      out.indicatedError = false :=
  ⟨_, _, returnPlaylist_m3u env fs fileName text hmem hfile hne hnul htidy hend, rfl,
    strtoul_snprintf5 _ hcount, rfl⟩

theorem m3u_returns_entries_witness :
    ∃ out count, SdCard_ReturnPlaylist sampleEnv
        (m3uCard "#comment\n\n/a.mp3\n/b.mp3\n\n".toList) "/list.m3u".toList
        PlayMode.LOCAL_M3U = some out ∧
      out.files = some { slots := 2, count := some count,
                         entries := [some "/a.mp3".toList, some "/b.mp3".toList] } ∧
      strtoul count = 2 ∧
      out.indicatedError = false :=
  m3u_returns_entries sampleEnv (m3uCard "#comment\n\n/a.mp3\n/b.mp3\n\n".toList)
    "/list.m3u".toList "#comment\n\n/a.mp3\n/b.mp3\n\n".toList
    (fun _ => rfl) (by decide) (by decide) (by decide) (by decide) (by decide) (by decide)

theorem repeatedLines_tidy (n : Nat) :
    m3uTidy M3uPos.lineStart (repeatedLines n) = true ∧ Char.ofNat 0 ∉ repeatedLines n ∧
      m3uEntries (repeatedLines n) = List.replicate n "/a.mp3".toList ∧
      (0 < n → (repeatedLines n).getLast? = some '\n') := by
  induction n with
  | zero => exact ⟨rfl, by simp [repeatedLines], by decide, fun h => absurd h (by decide)⟩
  | succ n ih =>
    obtain ⟨h1, h2, h3, h4⟩ := ih
    refine ⟨?_, ?_, ?_, fun _ => ?_⟩
    · simpa [repeatedLines, m3uTidy] using h1
    · intro h
      rcases List.mem_append.mp h with h | h
      · revert h; decide
      · exact h2 h
    · have := m3uEntries_line "/a.mp3".toList '\n' (repeatedLines n) (by decide) (by decide)
        (Or.inl rfl)
      rw [repeatedLines, show "/a.mp3\n".toList ++ repeatedLines n =
        "/a.mp3".toList ++ '\n' :: repeatedLines n from rfl, this, h3]
      rfl
    · cases n with
      | zero => rfl
      | succ m =>
        have := h4 (Nat.succ_pos m)
        rw [repeatedLines, List.getLast?_append, this]
        rfl

set_option maxRecDepth 100000 in
/-- C4 as stated fails on each of these texts, all non-empty and without NUL bytes.
On "#c\r/a.mp3\n/b.mp3\n" the lines that are non-empty and do not begin with '#' are
"/a.mp3" and "/b.mp3", and the call returns "/b.mp3" alone: the comment is consumed up to
the next '\n'.  On "/a.mp3#x\n/b.mp3\n" these lines are "/a.mp3#x" and "/b.mp3", and the
call returns the single entry "/a.mp3/b.mp3": a '#' inside a line starts a comment too.
On the 1059 bytes of `unterminatedText`, whose last line has no terminator, the list
outgrows the first chunk of 1024 bytes and is left without terminator: the call has no
result.  On ten thousand lines "/a.mp3" the call returns ten thousand entries and the
count element "1000". -/
theorem m3u_lines_counterexample :
    ("#c\r/a.mp3\n/b.mp3\n".toList ≠ [] ∧ Char.ofNat 0 ∉ "#c\r/a.mp3\n/b.mp3\n".toList ∧
      m3uEntries "#c\r/a.mp3\n/b.mp3\n".toList = ["/a.mp3".toList, "/b.mp3".toList] ∧
      (SdCard_ReturnPlaylist sampleEnv (m3uCard "#c\r/a.mp3\n/b.mp3\n".toList)
          "/list.m3u".toList PlayMode.LOCAL_M3U).map Outcome.files =
        some (some { slots := 1, count := some "1".toList,
                     entries := [some "/b.mp3".toList] })) ∧
      ("/a.mp3#x\n/b.mp3\n".toList ≠ [] ∧ Char.ofNat 0 ∉ "/a.mp3#x\n/b.mp3\n".toList ∧
        m3uEntries "/a.mp3#x\n/b.mp3\n".toList = ["/a.mp3#x".toList, "/b.mp3".toList] ∧
        (SdCard_ReturnPlaylist sampleEnv (m3uCard "/a.mp3#x\n/b.mp3\n".toList)
            "/list.m3u".toList PlayMode.LOCAL_M3U).map Outcome.files =
          some (some { slots := 1, count := some "1".toList,
                       entries := [some "/a.mp3/b.mp3".toList] })) ∧
      (unterminatedText ≠ [] ∧ Char.ofNat 0 ∉ unterminatedText ∧
        m3uTidy M3uPos.lineStart unterminatedText = true ∧
        SdCard_ReturnPlaylist sampleEnv (m3uCard unterminatedText) "/list.m3u".toList
          PlayMode.LOCAL_M3U = none) ∧
      (repeatedLines 10000 ≠ [] ∧ Char.ofNat 0 ∉ repeatedLines 10000 ∧
        m3uEntries (repeatedLines 10000) = List.replicate 10000 "/a.mp3".toList ∧
        (SdCard_ReturnPlaylist psramEnv (m3uCard (repeatedLines 10000)) "/list.m3u".toList
            PlayMode.LOCAL_M3U).map Outcome.files =
          some (some { slots := 10000, count := some "1000".toList,
                       entries := List.replicate 10000 (some "/a.mp3".toList) }) ∧
        strtoul "1000".toList = 1000) := by
  refine ⟨by decide, by decide, by decide, ?_⟩
  obtain ⟨h1, h2, h3, h4⟩ := repeatedLines_tidy 10000
  have hlast := h4 (by decide)
  have hne : repeatedLines 10000 ≠ [] := by
    intro h
    rw [h] at hlast
    simp at hlast
  refine ⟨hne, h2, h3, ?_, by decide⟩
  rw [returnPlaylist_m3u psramEnv (m3uCard (repeatedLines 10000)) "/list.m3u".toList
    (repeatedLines 10000) (fun _ => rfl) rfl hne h2 h1 (Or.inl hlast), h3]
  simp only [Option.map_some', List.length_replicate, List.map_replicate]
  have : snprintf5 10000 = "1000".toList := by decide
  rw [this]

/-! ### The extraction loop of `SdCard_pickRandomSubdirectory` -/

theorem extractLoop_delim (r d : Nat) (rest buf : CStr) :
    extractLoop r ('#' :: rest) d buf =
      if (d + 1) % 65536 > r ∨ buf.length = 254 then some buf
      else extractLoop r rest ((d + 1) % 65536) buf := by
  simp [extractLoop]

theorem extractLoop_other (r d : Nat) (c : Char) (rest buf : CStr) (hc : c ≠ '#') (hd : d ≠ r)
    (hb : buf.length ≠ 254) (hdr : d ≤ r) :
    extractLoop r (c :: rest) d buf = extractLoop r rest d buf := by
  have : ¬ d > r := by omega
  simp [extractLoop, hc, hd, hb, this]

theorem extractLoop_take (r : Nat) (c : Char) (rest buf : CStr) (hc : c ≠ '#') :
    extractLoop r (c :: rest) r buf =
      if buf.length + 1 = 254 then some (buf ++ [c])
      else extractLoop r rest r (buf ++ [c]) := by
  simp [extractLoop, hc]

theorem extractLoop_skip_name (r d : Nat) (name rest : CStr) (hfree : '#' ∉ name)
    (hd : d < r) : extractLoop r (name ++ rest) d [] = extractLoop r rest d [] := by
  induction name with
  | nil => rfl
  | cons c cs ih =>
    have hc : c ≠ '#' := fun he => hfree (by simp [he])
    rw [List.cons_append, extractLoop_other r d c _ [] hc (by omega) (by simp) (by omega)]
    exact ih (fun hm => hfree (by simp [hm]))

theorem extractLoop_skip (r : Nat) (names : List CStr) (hfree : ∀ n ∈ names, '#' ∉ n)
    (hr : r < 65536) (rest : CStr) (d : Nat) (hd : d + names.length < r) :
    extractLoop r (serialise names ++ rest) d [] = extractLoop r rest (d + names.length) [] := by
  induction names generalizing d with
  | nil => simp [serialise_nil]
  | cons n ns ih =>
    have hn : '#' ∉ n := hfree n (by simp)
    have hns : ∀ x ∈ ns, '#' ∉ x := fun x hx => hfree x (by simp [hx])
    simp only [List.length_cons] at hd
    have hmod : (d + 1) % 65536 = d + 1 := Nat.mod_eq_of_lt (by omega)
    rw [serialise_cons, List.cons_append, extractLoop_delim, hmod,
      if_neg (by simp; omega), List.append_assoc,
      extractLoop_skip_name r (d + 1) n _ hn (by omega), ih hns (d + 1) (by omega)]
    simp only [List.length_cons]
    congr 1
    omega

theorem extractLoop_collect (r : Nat) (name rest buf : CStr) (hfree : '#' ∉ name)
    (hb : buf.length + name.length < 254) :
    extractLoop r (name ++ rest) r buf = extractLoop r rest r (buf ++ name) := by
  induction name generalizing buf with
  | nil => simp
  | cons c cs ih =>
    have hc : c ≠ '#' := fun he => hfree (by simp [he])
    simp only [List.length_cons] at hb
    rw [List.cons_append, extractLoop_take r c _ buf hc, if_neg (by omega),
      ih (buf ++ [c]) (fun hm => hfree (by simp [hm])) (by simp; omega)]
    simp

theorem extractLoop_collect_full (r : Nat) (name rest buf : CStr) (hfree : '#' ∉ name)
    (hb : buf.length < 254) (hfull : 254 ≤ buf.length + name.length) :
    extractLoop r (name ++ rest) r buf = some ((buf ++ name).take 254) := by
  induction name generalizing buf with
  | nil => simp at hfull; omega
  | cons c cs ih =>
    have hc : c ≠ '#' := fun he => hfree (by simp [he])
    simp only [List.length_cons] at hfull
    rw [List.cons_append, extractLoop_take r c _ buf hc]
    by_cases h : buf.length + 1 = 254
    · rw [if_pos h]
      have : (buf ++ c :: cs).take 254 = buf ++ [c] := by
        rw [show buf ++ c :: cs = (buf ++ [c]) ++ cs by simp]
        exact List.take_left' (by simp [h])
      rw [this]
    · rw [if_neg h, ih (buf ++ [c]) (fun hm => hfree (by simp [hm])) (by simp; omega)
        (by simp; omega)]
      simp

theorem serialise_append_delim (post : List CStr) :
    ∃ tl, serialise post ++ stringDelimiter = '#' :: tl ∧ (post = [] → tl = []) := by
  cases post with
  | nil => exact ⟨[], by simp [serialise_nil, stringDelimiter], fun _ => rfl⟩
  | cons n ns =>
    exact ⟨n ++ serialise ns ++ stringDelimiter, by simp [serialise_cons], fun h => by simp at h⟩

theorem extractLoop_reach (pre post : List CStr) (n : CStr) (hpre : ∀ x ∈ pre, '#' ∉ x)
    (hn : '#' ∉ n) (hr : pre.length + 1 < 65536) :
    extractLoop (pre.length + 1) (serialise (pre ++ n :: post) ++ stringDelimiter) 0 [] =
      if 254 ≤ n.length then some (n.take 254)
      else extractLoop (pre.length + 1) (serialise post ++ stringDelimiter)
        (pre.length + 1) n := by
  have hmod : (pre.length + 1) % 65536 = pre.length + 1 := Nat.mod_eq_of_lt hr
  rw [serialise_append, List.append_assoc,
    extractLoop_skip (pre.length + 1) pre hpre hr _ 0 (by omega), serialise_cons,
    List.cons_append, Nat.zero_add, extractLoop_delim, hmod, if_neg (by simp),
    List.append_assoc]
  by_cases hfull : 254 ≤ n.length
  · rw [if_pos hfull, extractLoop_collect_full _ n _ [] hn (by simp) (by simpa using hfull)]
    simp
  · rw [if_neg hfull, extractLoop_collect _ n _ [] hn (by simp; omega)]
    simp

theorem extractLoop_found (pre post : List CStr) (n : CStr) (hpre : ∀ x ∈ pre, '#' ∉ x)
    (hn : '#' ∉ n) (hr : pre.length + 1 < 65535) :
    extractLoop (pre.length + 1) (serialise (pre ++ n :: post) ++ stringDelimiter) 0 [] =
      some (n.take 254) := by
  rw [extractLoop_reach pre post n hpre hn (by omega)]
  by_cases hfull : 254 ≤ n.length
  · rw [if_pos hfull]
  · obtain ⟨tl, htl, -⟩ := serialise_append_delim post
    have hmod : (pre.length + 1 + 1) % 65536 = pre.length + 1 + 1 := Nat.mod_eq_of_lt (by omega)
    rw [if_neg hfull, htl, extractLoop_delim, hmod, if_pos (by left; omega),
      List.take_of_length_le (by omega)]

theorem extractLoop_missed (pre : List CStr) (n : CStr) (hpre : ∀ x ∈ pre, '#' ∉ x)
    (hn : '#' ∉ n) (hr : pre.length + 1 = 65535) (hlen : n.length < 254) :
    extractLoop 65535 (serialise (pre ++ [n]) ++ stringDelimiter) 0 [] = none := by
  have h := extractLoop_reach pre [] n hpre hn (by omega)
  rw [hr] at h
  rw [h, if_neg (by omega)]
  simp [serialise_nil, stringDelimiter, extractLoop_delim, extractLoop]
  omega

/-- C6 (amended): for a candidate list of N names without '#', 1 <= N <= 65534, serialised
as '#' name_1 ... '#' name_N '#', and a draw k < N, the extraction loop run with
`randomNumber = k + 1` returns the name at position k (the (k+1)-th candidate), cut to its
first 254 characters when it is longer: draw k selects position k, so the draws and the
positions correspond one to one, and the `return NULL` behind the loop is not reached. -/
theorem extract_returns_drawn (names : List CStr) (k : Nat)
    (hfree : ∀ n ∈ names, '#' ∉ n) (hN : names.length ≤ 65534) (hk : k < names.length) :
    extractLoop ((k + 1) % 65536) (serialise names ++ stringDelimiter) 0 [] =
      some ((names.get ⟨k, hk⟩).take 254) := by
  have hsplit : names = names.take k ++ names.get ⟨k, hk⟩ :: names.drop (k + 1) := by
    rw [List.get_eq_getElem, List.getElem_cons_drop, List.take_append_drop]
  have hlen : (names.take k).length = k := by
    rw [List.length_take]
    omega
  have hmod : (k + 1) % 65536 = (names.take k).length + 1 := by
    rw [hlen]
    exact Nat.mod_eq_of_lt (by omega)
  have h := extractLoop_found (names.take k) (names.drop (k + 1)) (names.get ⟨k, hk⟩)
    (fun x hx => hfree x (List.mem_of_mem_take hx))
    (hfree _ (List.get_mem names k hk)) (by omega)
  rw [← hsplit] at h
  rw [hmod, h]

theorem extract_returns_drawn_witness :
    extractLoop 2 (serialise ["/m/a".toList, "/m/b".toList, "/m/c".toList] ++ stringDelimiter)
        0 [] = some "/m/b".toList :=
  extract_returns_drawn ["/m/a".toList, "/m/b".toList, "/m/c".toList] 1
    (by decide) (by decide) (by decide)

/-- C6 as stated fails for N = 65535 and the draw k = 65534: the names are non-empty and
free of '#', `randomNumber` is 65535, the `uint16_t` counter `delimiterFoundCount` wraps to
0 at the closing '#', the test `delimiterFoundCount > randomNumber` never holds, and the
loop ends in `return NULL`. -/
theorem extract_wrap_counterexample :
    (∀ n ∈ List.replicate 65535 "/a".toList, n ≠ [] ∧ '#' ∉ n) ∧
      65534 < (List.replicate 65535 "/a".toList).length ∧
      extractLoop ((65534 + 1) % 65536)
        (serialise (List.replicate 65535 "/a".toList) ++ stringDelimiter) 0 [] = none := by
  refine ⟨?_, by rw [List.length_replicate]; omega, ?_⟩
  · intro n hn
    rw [List.eq_of_mem_replicate hn]
    decide
  · have hrep : List.replicate 65535 "/a".toList =
        List.replicate 65534 "/a".toList ++ ["/a".toList] := by
      rw [show (65535 : Nat) = 65534 + 1 from rfl, List.replicate_succ']
    rw [hrep]
    exact extractLoop_missed (List.replicate 65534 "/a".toList) "/a".toList
      (fun x hx => by rw [List.eq_of_mem_replicate hx]; decide) (by decide)
      (by rw [List.length_replicate]) (by decide)

/-! ### `SdCard_pickRandomSubdirectory` on concrete cards -/

/-- C5 (failing input): in the build with the file-explorer speed-up, on the directory `/m`
with the subdirectory `/m/sub` and the file `/m/a.mp3`, the only possible draw (0 of 1
candidate) returns `/m/a.mp3`, a file: the loop skips the directories and lists the files.
The `#else` branch of the same loop returns `/m/sub`. -/
theorem pick_speedup_returns_file :
    (SdCard_pickRandomSubdirectory sampleEnv mixedCard 1 "/m".toList 0).path =
        some "/m/a.mp3".toList ∧
      (SdCard_pickRandomSubdirectory legacyEnv mixedCard 1 "/m".toList 0).path =
        some "/m/sub".toList := by
  decide

/-- C7 (failing input): in the build with the file-explorer speed-up, on the directory `/f`
that holds one file and no subdirectory, the call draws a random number and returns the
file `/f/a.mp3`; the `#else` branch of the same loop returns NULL without a draw. -/
theorem pick_speedup_no_subdirectory :
    SdCard_pickRandomSubdirectory sampleEnv filesOnlyCard 1 "/f".toList 0 =
        { path := some "/f/a.mp3".toList, allocCount := 1, indicatedError := false,
          drew := true } ∧
      SdCard_pickRandomSubdirectory legacyEnv filesOnlyCard 1 "/f".toList 0 =
        { path := none, allocCount := 1, indicatedError := false, drew := false } := by
  decide

/-! ### The playlist cache -/

theorem cacheFileName_eq (env : Env) (fileName : CStr) (h : fileName.length ≤ 275) :
    cacheFileName env fileName = fileName ++ "/".toList ++ env.playlistCacheFile := by
  rw [cacheFileName, strncpy_eq_self fileName 275 h]

theorem readCacheFile_loaded (env : Env) (fs : FS) (fileName : CStr) (_playMode : PlayMode)
    (bytes : List Char)
    (hbuild : env.cachedPlaylistEnable = true) (hmem : ∀ site, env.mem site = true)
    (hst : _playMode ≠ PlayMode.SINGLE_TRACK) (hstl : _playMode ≠ PlayMode.SINGLE_TRACK_LOOP)
    (hcache : fs.find (cacheFileName env fileName) = some (Node.file bytes))
    (hsize : 1 ≤ bytes.length) :
    readCacheFile env fs fileName _playMode = some (true, some (cstr bytes)) := by
  simp [readCacheFile, hbuild, hmem, hcache, hst, hstl, Node.size, Node.bytes, hsize]

theorem returnPlaylist_cached (env : Env) (fs : FS) (fileName : CStr) (_playMode : PlayMode)
    (node : Node) (bytes : List Char) (p : Playlist)
    (hbuild : env.cachedPlaylistEnable = true) (hmem : ∀ site, env.mem site = true)
    (hfind : fs.find fileName = some node)
    (hst : _playMode ≠ PlayMode.SINGLE_TRACK) (hstl : _playMode ≠ PlayMode.SINGLE_TRACK_LOOP)
    (hm3u : _playMode ≠ PlayMode.LOCAL_M3U)
    (hcache : fs.find (cacheFileName env fileName) = some (Node.file bytes))
    (hsize : 1 ≤ bytes.length)
    (hsplit : splitPlaylist env.mem (cstr bytes) = some (some p, false)) :
    SdCard_ReturnPlaylist env fs fileName _playMode = some
      { files := some p, fs := fs, indicatedError := false, enumerated := false } := by
  simp only [SdCard_ReturnPlaylist, hfind,
    readCacheFile_loaded env fs fileName _playMode bytes hbuild hmem hst hstl hcache hsize,
    hm3u, if_false, Bool.not_true, Bool.false_eq_true, hsplit, Option.map_some']

theorem cstr_head (bytes : List Char) (h : bytes.head? = some '#') :
    (cstr bytes).head? = some '#' := by
  cases bytes with
  | nil => simp at h
  | cons c cs =>
    have hc : c = '#' := by simpa using h
    subst hc
    rfl

/-- C8 (amended): in a build with `CACHED_PLAYLIST_ENABLE`, for a directory target whose
cache path `<directory>/<cache filename>` with its terminator fits the 275 bytes of
`cacheFileNameBuf`, a play mode other than SINGLE_TRACK, SINGLE_TRACK_LOOP and LOCAL_M3U,
and a cache file of size >= 1 at that path whose first byte is '#', the count-and-split
of the C string formed by the cache file's bytes yields a playlist, and the call
(allocations succeeding) returns this playlist, leaves the card as it was and does not
ask for the children; on a second card with the same cache content and any other
children the call returns the same playlist. -/
theorem cache_file_is_used (env : Env) (fs fs' : FS) (fileName : CStr) (_playMode : PlayMode)
    (children children' : List Child) (bytes : List Char)
    (hbuild : env.cachedPlaylistEnable = true) (hmem : ∀ site, env.mem site = true)
    (hlen : fileName.length + 1 + env.playlistCacheFile.length < 275)
    (hst : _playMode ≠ PlayMode.SINGLE_TRACK) (hstl : _playMode ≠ PlayMode.SINGLE_TRACK_LOOP)
    (hm3u : _playMode ≠ PlayMode.LOCAL_M3U)
    (hsize : 1 ≤ bytes.length)
    (hhead : bytes.head? = some '#')
    (hdir : fs.find fileName = some (Node.dir children))
    (hcache : fs.find (fileName ++ "/".toList ++ env.playlistCacheFile) =
      some (Node.file bytes))
    (hdir' : fs'.find fileName = some (Node.dir children'))
    (hcache' : fs'.find (fileName ++ "/".toList ++ env.playlistCacheFile) =
      some (Node.file bytes)) :
    ∃ p, splitPlaylist env.mem (cstr bytes) = some (some p, false) ∧
      SdCard_ReturnPlaylist env fs fileName _playMode = some
        { files := some p, fs := fs, indicatedError := false, enumerated := false } ∧
      SdCard_ReturnPlaylist env fs' fileName _playMode = some
        { files := some p, fs := fs', indicatedError := false, enumerated := false } := by
  have hname := cacheFileName_eq env fileName (by omega)
  rw [← hname] at hcache hcache'
  have hsplit := splitPlaylist_ok env.mem hmem (cstr bytes)
    (strtokAll_fits _ (Or.inr (cstr_head bytes hhead)))
  exact ⟨_, hsplit,
    returnPlaylist_cached env fs fileName _playMode _ bytes _ hbuild hmem hdir hst hstl hm3u
      hcache hsize hsplit,
    returnPlaylist_cached env fs' fileName _playMode _ bytes _ hbuild hmem hdir' hst hstl hm3u
      hcache' hsize hsplit⟩

theorem cache_file_is_used_witness :
    ∃ p, splitPlaylist sampleEnv.mem (cstr "#/c/old.mp3".toList) = some (some p, false) ∧
      SdCard_ReturnPlaylist sampleEnv staleCard "/c".toList (PlayMode.other 0) = some
        { files := some p, fs := staleCard, indicatedError := false, enumerated := false } ∧
      SdCard_ReturnPlaylist sampleEnv
          { nodes := ("/c".toList, Node.dir []) :: staleCard.nodes } "/c".toList
          (PlayMode.other 0) = some
        { files := some p, fs := { nodes := ("/c".toList, Node.dir []) :: staleCard.nodes },
          indicatedError := false, enumerated := false } :=
  cache_file_is_used sampleEnv staleCard { nodes := ("/c".toList, Node.dir []) :: staleCard.nodes }
    "/c".toList (PlayMode.other 0) [{ path := "/c/new.mp3".toList, isDir := false }] []
    "#/c/old.mp3".toList rfl (fun _ => rfl) (by decide) (by decide) (by decide) (by decide)
    (by decide) (by decide) (by decide) (by decide) (by decide) (by decide)

/-- C8 as stated fails in two ways.  In a build without `CACHED_PLAYLIST_ENABLE`, on the
directory `/c` with the child `/c/new.mp3` and the cache file `/c/playlistcache.csv`
holding "#/c/old.mp3", in a play mode other than the three named ones, the call asks for
the children and returns `/c/new.mp3`, while the count-and-split of the cache file is
`/c/old.mp3`.  In a build with `CACHED_PLAYLIST_ENABLE`, when the cache file holds
"/c/x.mp3#/c/y.mp3", one '#' is counted and two pointers are allocated, element 0 and
one slot; the split finds two tokens and stores the second behind the end of the array:
the count-and-split, and with it the call, has no result. -/
theorem cache_file_counterexample :
    ((SdCard_ReturnPlaylist uncachedEnv staleCard "/c".toList (PlayMode.other 0)).map
        (fun out => (out.files, out.enumerated)) =
        some (some { slots := 1, count := some "1".toList,
                     entries := [some "/c/new.mp3".toList] }, true) ∧
      splitPlaylist uncachedEnv.mem (cstr "#/c/old.mp3".toList) =
        some (some { slots := 1, count := some "1".toList,
                     entries := [some "/c/old.mp3".toList] }, false)) ∧
      (looseCacheCard.find "/c/playlistcache.csv".toList =
          some (Node.file "/c/x.mp3#/c/y.mp3".toList) ∧
        1 ≤ (Node.file "/c/x.mp3#/c/y.mp3".toList).size ∧
        countDelimiters (cstr "/c/x.mp3#/c/y.mp3".toList) = 1 ∧
        strtokAll stringDelimiter (cstr "/c/x.mp3#/c/y.mp3".toList) [] =
          ["/c/x.mp3".toList, "/c/y.mp3".toList] ∧
        splitPlaylist sampleEnv.mem (cstr "/c/x.mp3#/c/y.mp3".toList) = none ∧
        SdCard_ReturnPlaylist sampleEnv looseCacheCard "/c".toList (PlayMode.other 0) =
          none) := by
  decide

theorem readCacheFile_absent (env : Env) (fs : FS) (fileName : CStr) (_playMode : PlayMode)
    (h : fs.find (cacheFileName env fileName) = none) :
    readCacheFile env fs fileName _playMode = some (false, none) := by
  simp [readCacheFile, h]

theorem find_write (fs : FS) (path : CStr) (content : List Char) :
    (fs.write path content).find path = some (Node.file content) := by
  simp [FS.find, FS.write, List.lookup]

theorem acceptedPaths_ne_nil (children : List Child)
    (h : ∃ c ∈ children, c.isDir = false ∧ fileValid true c.path = some true) :
    acceptedPaths children ≠ [] := by
  obtain ⟨c, hc, hd, hv⟩ := h
  intro he
  have : c.path ∈ acceptedPaths children := by
    simp only [acceptedPaths, List.mem_map, List.mem_filter, Bool.and_eq_true,
      Bool.not_eq_true', beq_iff_eq]
    exact ⟨c, ⟨hc, hd, hv⟩, rfl⟩
  rw [he] at this
  simp at this

theorem serialise_length_pos (entries : List CStr) (h : entries ≠ []) :
    1 ≤ (serialise entries).length := by
  cases entries with
  | nil => exact absurd rfl h
  | cons e es => simp [serialise_cons]

/-- C9 (amended): for a play mode with the caching flag enabled other than LOCAL_M3U, a
directory whose cache path fits `cacheFileNameBuf`, with no cache file, whose children
have full paths shorter than 255 characters without '#' (and without NUL), at least one
of them a file that passes `fileValid`, when the cache file can be opened for writing and
allocations succeed: the first call leaves a cache file whose content is the
'#'-delimited list of the accepted paths in enumeration order, and a second call on a
card that still holds this cache file returns the same array as the first call, whatever
children the directory has by then. -/
theorem scan_then_cached (env : Env) (fs fs2 : FS) (fileName : CStr) (_playMode : PlayMode)
    (children children2 : List Child)
    (hmem : ∀ site, env.mem site = true)
    (hcaching : enablePlaylistCaching env _playMode = true)
    (hm3u : _playMode ≠ PlayMode.LOCAL_M3U)
    (hlen : fileName.length + 1 + env.playlistCacheFile.length < 275)
    (hopen : env.openForWrite (fileName ++ "/".toList ++ env.playlistCacheFile) = true)
    (hdir : fs.find fileName = some (Node.dir children))
    (hnocache : fs.find (fileName ++ "/".toList ++ env.playlistCacheFile) = none)
    (hpaths : ∀ c ∈ children,
      '/' ∈ c.path ∧ c.path.length < 255 ∧ '#' ∉ c.path ∧ Char.ofNat 0 ∉ c.path)
    (hvalid : ∃ c ∈ children, c.isDir = false ∧ fileValid true c.path = some true)
    (hdir2 : fs2.find fileName = some (Node.dir children2)) :
    ∃ out1, SdCard_ReturnPlaylist env fs fileName _playMode = some out1 ∧
      out1.fs.find (fileName ++ "/".toList ++ env.playlistCacheFile) =
        some (Node.file (serialise (acceptedPaths children))) ∧
      out1.files = some { slots := (acceptedPaths children).length,
                          count := some (snprintf5 (acceptedPaths children).length),
                          entries := (acceptedPaths children).map some } ∧
      (fs2.find (fileName ++ "/".toList ++ env.playlistCacheFile) =
          out1.fs.find (fileName ++ "/".toList ++ env.playlistCacheFile) →
        ∃ out2, SdCard_ReturnPlaylist env fs2 fileName _playMode = some out2 ∧
          out2.files = out1.files ∧ out2.enumerated = false) := by
  have hname := cacheFileName_eq env fileName (by omega)
  rw [← hname] at hopen hnocache ⊢
  have hflags : env.cachedPlaylistEnable = true ∧ _playMode ≠ PlayMode.SINGLE_TRACK ∧
      _playMode ≠ PlayMode.SINGLE_TRACK_LOOP := by
    simpa [enablePlaylistCaching] using hcaching
  have hp3 : ∀ c ∈ children, '/' ∈ c.path ∧ c.path.length < 255 ∧ '#' ∉ c.path :=
    fun c hc => ⟨(hpaths c hc).1, (hpaths c hc).2.1, (hpaths c hc).2.2.1⟩
  have hacc : ∀ e ∈ acceptedPaths children, e ≠ [] ∧ '#' ∉ e := by
    intro e he
    obtain ⟨c, hc, rfl, -, -⟩ := acceptedPaths_mem children e he
    have := hpaths c hc
    exact ⟨fun h0 => by rw [h0] at this; simp at this, this.2.2.1⟩
  have hnul : Char.ofNat 0 ∉ serialise (acceptedPaths children) := by
    apply nul_not_mem_serialise
    intro e he
    obtain ⟨c, hc, rfl, -, -⟩ := acceptedPaths_mem children e he
    exact (hpaths c hc).2.2.2
  have h1 : SdCard_ReturnPlaylist env fs fileName _playMode =
      directoryMode env fs fileName _playMode children := by
    simp only [SdCard_ReturnPlaylist, hdir,
      readCacheFile_absent env fs fileName _playMode hnocache, hm3u, if_false, Bool.not_false,
      if_true, Node.isDirectory, Bool.not_true, Bool.false_eq_true, Node.children]
  rw [h1, directoryMode_accepts env fs fileName _playMode children hmem hp3]
  refine ⟨_, rfl, ?_, rfl, ?_⟩
  · simp only [hcaching, hopen, Bool.and_self, if_true, find_write]
  · simp only [hcaching, hopen, Bool.and_self, if_true, find_write]
    intro hcache2
    have h2 := returnPlaylist_cached env fs2 fileName _playMode _
      (serialise (acceptedPaths children)) _ hflags.1 hmem hdir2 hflags.2.1 hflags.2.2 hm3u
      hcache2 (serialise_length_pos _ (acceptedPaths_ne_nil children hvalid))
      (by rw [cstr_eq_self _ hnul]; exact splitPlaylist_serialise env.mem hmem _ hacc)
    exact ⟨_, h2, rfl, rfl⟩

theorem scan_then_cached_witness :
    ∃ out1, SdCard_ReturnPlaylist sampleEnv freshCard "/Cached".toList (PlayMode.other 0) =
        some out1 ∧
      out1.fs.find ("/Cached".toList ++ "/".toList ++ sampleEnv.playlistCacheFile) =
        some (Node.file (serialise (acceptedPaths
          [{ path := "/Cached/a.mp3".toList, isDir := false }]))) ∧
      out1.files = some
        { slots := (acceptedPaths [{ path := "/Cached/a.mp3".toList, isDir := false }]).length,
          count := some (snprintf5
            (acceptedPaths [{ path := "/Cached/a.mp3".toList, isDir := false }]).length),
          entries := (acceptedPaths
            [{ path := "/Cached/a.mp3".toList, isDir := false }]).map some } ∧
      ((FS.mk [("/Cached".toList, Node.dir
              [{ path := "/Cached/a.mp3".toList, isDir := false },
               { path := "/Cached/b.mp3".toList, isDir := false }]),
            ("/Cached/playlistcache.csv".toList, Node.file "#/Cached/a.mp3".toList)]).find
            ("/Cached".toList ++ "/".toList ++ sampleEnv.playlistCacheFile) =
          out1.fs.find ("/Cached".toList ++ "/".toList ++ sampleEnv.playlistCacheFile) →
        ∃ out2, SdCard_ReturnPlaylist sampleEnv
            (FS.mk [("/Cached".toList, Node.dir
              [{ path := "/Cached/a.mp3".toList, isDir := false },
               { path := "/Cached/b.mp3".toList, isDir := false }]),
            ("/Cached/playlistcache.csv".toList, Node.file "#/Cached/a.mp3".toList)])
            "/Cached".toList (PlayMode.other 0) = some out2 ∧
          out2.files = out1.files ∧ out2.enumerated = false) :=
  scan_then_cached sampleEnv freshCard _ "/Cached".toList (PlayMode.other 0)
    [{ path := "/Cached/a.mp3".toList, isDir := false }]
    [{ path := "/Cached/a.mp3".toList, isDir := false },
     { path := "/Cached/b.mp3".toList, isDir := false }]
    (fun _ => rfl) (by decide) (by decide) (by decide) rfl (by decide) (by decide) (by decide)
    (by decide) (by decide)

/-- C9 as stated fails for the play mode LOCAL_M3U, for which the caching flag is enabled:
on the directory `/Cached` with the accepted child `/Cached/a.mp3` and no cache file, the
first call returns `nullptr` and leaves the card without cache file. -/
theorem cached_m3u_counterexample :
    enablePlaylistCaching sampleEnv PlayMode.LOCAL_M3U = true ∧
      SdCard_ReturnPlaylist sampleEnv freshCard "/Cached".toList PlayMode.LOCAL_M3U = some
        { files := none, fs := freshCard, indicatedError := false, enumerated := false } ∧
      freshCard.find ("/Cached".toList ++ "/".toList ++ sampleEnv.playlistCacheFile) = none := by
  decide

/-! ### The count element -/

/-- C10 (failing input): on the directory `/big` whose cache file lists ten thousand
entries, the call stores ten thousand entries behind element 0, and element 0 is "1000":
`snprintf` with size 5 keeps four digits, so element 0 read as a decimal number is 1000. -/
theorem count_element_truncated :
    ∃ p, (SdCard_ReturnPlaylist sampleEnv bigCard "/big".toList (PlayMode.other 0)).map
        Outcome.files = some (some p) ∧
      p.entries = List.replicate 10000 (some "/big/a.mp3".toList) ∧
      p.entries.length = 10000 ∧
      p.count = some "1000".toList ∧
      strtoul "1000".toList = 1000 := by
  have hfree : ∀ e ∈ List.replicate 10000 "/big/a.mp3".toList, e ≠ [] ∧ '#' ∉ e := by
    intro e he
    rw [List.eq_of_mem_replicate he]
    decide
  have hnul : Char.ofNat 0 ∉ serialise (List.replicate 10000 "/big/a.mp3".toList) := by
    apply nul_not_mem_serialise
    intro e he
    rw [List.eq_of_mem_replicate he]
    decide
  have h := returnPlaylist_cached sampleEnv bigCard "/big".toList (PlayMode.other 0)
    (Node.dir []) (serialise (List.replicate 10000 "/big/a.mp3".toList)) _ rfl (fun _ => rfl)
    (by decide) (by decide) (by decide) (by decide) rfl
    (serialise_length_pos _
      (List.ne_nil_of_length_pos (by rw [List.length_replicate]; omega)))
    (by rw [cstr_eq_self _ hnul]
        exact splitPlaylist_serialise sampleEnv.mem (fun _ => rfl) _ hfree)
  rw [h]
  refine ⟨_, rfl, ?_, ?_, ?_, by decide⟩
  · exact List.map_replicate
  · show ((List.replicate 10000 "/big/a.mp3".toList).map some).length = 10000
    rw [List.length_map, List.length_replicate]
  · show some (snprintf5 (List.replicate 10000 "/big/a.mp3".toList).length) = _
    rw [List.length_replicate]
    decide

/-! ### File mode, single-track modes, empty cache file, LOCAL_M3U -/

theorem returnPlaylist_directory (env : Env) (fs : FS) (fileName : CStr)
    (_playMode : PlayMode) (children : List Child)
    (hdir : fs.find fileName = some (Node.dir children))
    (hmode : _playMode ≠ PlayMode.LOCAL_M3U)
    (hcache : readCacheFile env fs fileName _playMode = some (false, none)) :
    SdCard_ReturnPlaylist env fs fileName _playMode =
      directoryMode env fs fileName _playMode children := by
  simp only [SdCard_ReturnPlaylist, hdir, hcache, hmode, if_false, Bool.not_false, if_true,
    Node.isDirectory, Bool.not_true, Bool.false_eq_true, Node.children]

/-- C11: for a target that is a file with a full path shorter than 255 characters (nothing
is stored below a file, so no cache file is found at `<file>/<cache filename>`) and a
play mode other than LOCAL_M3U, with allocations succeeding, the call returns an array
whose count element is "1" whether or not the file passes `fileValid`; when it passes,
the single entry is the file's path, and when it does not, no entry is written. -/
theorem file_mode_count_one (env : Env) (fs : FS) (fileName : CStr) (_playMode : PlayMode)
    (content : List Char)
    (hmem : ∀ site, env.mem site = true)
    (hfile : fs.find fileName = some (Node.file content))
    (hfull : '/' ∈ fileName) (hlen : fileName.length < 255)
    (hmode : _playMode ≠ PlayMode.LOCAL_M3U)
    (hbelow : fs.find (fileName ++ "/".toList ++ env.playlistCacheFile) = none) :
    ∃ out p, SdCard_ReturnPlaylist env fs fileName _playMode = some out ∧
      out.files = some p ∧ p.count = some "1".toList ∧ p.slots = 1 ∧
      (fileValid true fileName = some true → p.entries = [some fileName]) ∧
      (fileValid true fileName = some false → p.entries = []) := by
  rw [← cacheFileName_eq env fileName (by omega)] at hbelow
  obtain ⟨b, hb⟩ := fileValid_some fileName hfull
  have h : SdCard_ReturnPlaylist env fs fileName _playMode = some
      { files := some { slots := 1, count := some "1".toList,
                        entries := if b then [some fileName] else [] },
        fs := fs, indicatedError := false, enumerated := false } := by
    simp only [SdCard_ReturnPlaylist, hfile,
      readCacheFile_absent env fs fileName _playMode hbelow, hmode, if_false, Bool.not_false,
      if_true, Node.isDirectory, fileMode, hmem, strncpy_eq_self fileName 255 (by omega), hb]
  refine ⟨_, _, h, rfl, rfl, rfl, ?_, ?_⟩
  · intro hv
    rw [hb] at hv
    cases hv
    rfl
  · intro hv
    rw [hb] at hv
    cases hv
    rfl

theorem file_mode_count_one_witness :
    ∃ out p, SdCard_ReturnPlaylist sampleEnv songCard "/music/song.MP3".toList
        PlayMode.SINGLE_TRACK = some out ∧
      out.files = some p ∧ p.count = some "1".toList ∧ p.slots = 1 ∧
      (fileValid true "/music/song.MP3".toList = some true →
        p.entries = [some "/music/song.MP3".toList]) ∧
      (fileValid true "/music/song.MP3".toList = some false → p.entries = []) :=
  file_mode_count_one sampleEnv songCard "/music/song.MP3".toList PlayMode.SINGLE_TRACK
    "ID3".toList (fun _ => rfl) (by decide) (by decide) (by decide) (by decide) (by decide)

set_option maxRecDepth 100000 in
/-- C14 (failing input): without PSRAM, play mode LOCAL_M3U on the file `/list.m3u` that
holds the 1059 bytes of `unterminatedText`, 53 lines `/music/track-01.mp3` of which the
last has no line terminator.  The loop writes 1060 characters, the last of them '3', and
grows the buffer to two chunks; position 1060 lies in the part that `realloc` added and
that nobody wrote, and lines 361-363 write no terminator because the last character is
not '#'.  The count-and-split reads on behind the bytes that came from the file, and the
call has no result.  The same lines with a final newline give the 53 entries. -/
theorem m3u_list_unterminated :
    unterminatedText.length = 1059 ∧
      (m3uLoop sampleEnv 1024 unterminatedText false
          { serializedPlaylist := ['#'], lastBuf := '#', allocCount := 1 }).map
          (fun st => (st.serializedPlaylist.length, st.lastBuf, st.allocCount)) =
        some (1060, '3', 2) ∧
      SdCard_ReturnPlaylist sampleEnv (m3uCard unterminatedText) "/list.m3u".toList
        PlayMode.LOCAL_M3U = none ∧
      (SdCard_ReturnPlaylist sampleEnv (m3uCard (unterminatedText ++ ['\n']))
          "/list.m3u".toList PlayMode.LOCAL_M3U).map Outcome.files =
        some (some { slots := 53, count := some "53".toList,
                     entries := List.replicate 53 (some "/music/track-01.mp3".toList) }) := by
  decide

/-! ### Allocation failures during a directory scan -/

/-- C15 (failing inputs): on the directory `/Test` (accepted files `/Test/b.mp3` and
`/Test/a.mp3`), when the copy of the first entry fails (line 483) the call still returns
the array, with a null pointer in slot 1, and indicates no error; when the first
`x_calloc` of the list (line 401) fails, the null pointer reaches `strlen` and the call
has no result.  A failure of the pointer array or of the count element returns `nullptr`
and indicates the error, as the claim says. -/
theorem scan_allocation_unchecked :
    SdCard_ReturnPlaylist (failingEnv (AllocSite.entry 1)) testCard "/Test".toList
        PlayMode.SINGLE_TRACK = some
        { files := some { slots := 2, count := some "2".toList,
                          entries := [none, some "/Test/a.mp3".toList] },
          fs := testCard, indicatedError := false, enumerated := true } ∧
      SdCard_ReturnPlaylist (failingEnv AllocSite.scanList) testCard "/Test".toList
        PlayMode.SINGLE_TRACK = none ∧
      SdCard_ReturnPlaylist (failingEnv AllocSite.array) testCard "/Test".toList
        PlayMode.SINGLE_TRACK = some
        { files := none, fs := testCard, indicatedError := true, enumerated := true } ∧
      SdCard_ReturnPlaylist (failingEnv AllocSite.count) testCard "/Test".toList
        PlayMode.SINGLE_TRACK = some
        { files := none, fs := testCard, indicatedError := true, enumerated := true } := by
  decide

/-! ### Entries of a scanned playlist -/

/-- C16 (amended): when the directory is scanned (no cache file is read, the play mode is
not LOCAL_M3U, allocations succeed) and the children have full paths shorter than 255
characters that contain no '#', every entry of the array returned is a path that passes
`fileValid` and is the full path of one of the non-directory children. -/
theorem scanned_entries_validated (env : Env) (fs : FS) (fileName : CStr)
    (_playMode : PlayMode) (children : List Child)
    (hmem : ∀ site, env.mem site = true)
    (hdir : fs.find fileName = some (Node.dir children))
    (hmode : _playMode ≠ PlayMode.LOCAL_M3U)
    (hcache : readCacheFile env fs fileName _playMode = some (false, none))
    (hpaths : ∀ c ∈ children, '/' ∈ c.path ∧ c.path.length < 255 ∧ '#' ∉ c.path) :
    ∃ out p, SdCard_ReturnPlaylist env fs fileName _playMode = some out ∧
      out.files = some p ∧ out.enumerated = true ∧
      ∀ e ∈ p.entries, ∃ path, e = some path ∧ fileValid true path = some true ∧
        ∃ c ∈ children, c.isDir = false ∧ c.path = path := by
  rw [returnPlaylist_directory env fs fileName _playMode children hdir hmode hcache,
    directoryMode_accepts env fs fileName _playMode children hmem hpaths]
  refine ⟨_, _, rfl, rfl, rfl, ?_⟩
  intro e he
  obtain ⟨path, hp, rfl⟩ := List.mem_map.mp he
  obtain ⟨c, hc, hcp, hd, hv⟩ := acceptedPaths_mem children path hp
  exact ⟨path, rfl, hcp ▸ hv, c, hc, hd, hcp⟩

theorem scanned_entries_validated_witness :
    ∃ out p, SdCard_ReturnPlaylist sampleEnv testCard "/Test".toList
        PlayMode.SINGLE_TRACK = some out ∧
      out.files = some p ∧ out.enumerated = true ∧
      ∀ e ∈ p.entries, ∃ path, e = some path ∧ fileValid true path = some true ∧
        ∃ c ∈ testChildren, c.isDir = false ∧ c.path = path :=
  scanned_entries_validated sampleEnv testCard "/Test".toList PlayMode.SINGLE_TRACK
    testChildren (fun _ => rfl) (by decide) (by decide) (by decide) (by decide)

/-- C16 as stated fails for the child `/m/a#b.mp3` of the directory `/m`: the path is
shorter than 255 characters and passes `fileValid`, the scan returns the two entries
`/m/a` and `b.mp3`; `/m/a` does not pass `fileValid`, and neither is the path of a
child. -/
theorem hash_name_counterexample :
    (SdCard_ReturnPlaylist sampleEnv hashCard "/m".toList PlayMode.SINGLE_TRACK).map
        (fun out => (out.files, out.enumerated)) =
        some (some { slots := 2, count := some "2".toList,
                     entries := [some "/m/a".toList, some "b.mp3".toList] }, true) ∧
      fileValid true "/m/a#b.mp3".toList = some true ∧
      fileValid true "/m/a".toList = some false ∧
      "/m/a".toList ≠ "/m/a#b.mp3".toList ∧ "b.mp3".toList ≠ "/m/a#b.mp3".toList := by
  decide

/-! ### Hidden names -/

/-- C20 (amended): for every path that contains a '/', `fileValid` returns a boolean
(whether or not `x_strdup` succeeds), and it returns false when the final path segment
starts with '.'. -/
theorem fileValid_rejects_hidden (dupOk : Bool) (path : CStr) (h : '/' ∈ path) :
    ∃ b, fileValid dupOk path = some b ∧
      ((finalSegment path).head? = some '.' → b = false) := by
  cases dupOk with
  | false => exact ⟨false, by simp [fileValid], fun _ => rfl⟩
  | true =>
    obtain ⟨pre, seg, rfl, hseg⟩ := exists_last_slash path h
    refine ⟨_, fileValid_of_last_slash pre seg hseg, ?_⟩
    rw [finalSegment_append_cons pre seg hseg]
    intro hdot
    simp [hdot]

theorem fileValid_rejects_hidden_witness :
    ∃ b, fileValid true "/music/.hidden.mp3".toList = some b ∧
      ((finalSegment "/music/.hidden.mp3".toList).head? = some '.' → b = false) :=
  fileValid_rejects_hidden true "/music/.hidden.mp3".toList (by decide)

/-- C20 as stated fails for the path ".hidden.mp3", which contains no '/': its final
segment is the whole path and starts with '.', `strrchr` returns the null pointer, and
with `startsWith` defined on strings only the call has no result. -/
theorem fileValid_no_slash_counterexample :
    '/' ∉ ".hidden.mp3".toList ∧
      finalSegment ".hidden.mp3".toList = ".hidden.mp3".toList ∧
      (finalSegment ".hidden.mp3".toList).head? = some '.' ∧
      strrchr (strlwr ".hidden.mp3".toList) '/' = none ∧
      fileValid true ".hidden.mp3".toList = none := by
  decide

/-! ### The shape of the serialized list -/

theorem adjacentDelimiters_cons_other (c : Char) (s : CStr) (hc : c ≠ '#') :
    adjacentDelimiters (c :: s) = adjacentDelimiters s := by
  cases s with
  | nil => simp [adjacentDelimiters]
  | cons b rest => simp [adjacentDelimiters, hc]

theorem adjacentDelimiters_append (e t : CStr) (he : '#' ∉ e) :
    adjacentDelimiters (e ++ t) = adjacentDelimiters t := by
  induction e with
  | nil => rfl
  | cons c cs ih =>
    have hc : c ≠ '#' := fun h => he (by simp [h])
    rw [List.cons_append, adjacentDelimiters_cons_other c _ hc]
    exact ih (fun hm => he (by simp [hm]))

theorem adjacentDelimiters_serialise (entries : List CStr)
    (h : ∀ e ∈ entries, e ≠ [] ∧ '#' ∉ e) : adjacentDelimiters (serialise entries) = false := by
  induction entries with
  | nil => simp [serialise_nil, adjacentDelimiters]
  | cons e es ih =>
    have he := h e (by simp)
    have hes : ∀ x ∈ es, x ≠ [] ∧ '#' ∉ x := fun x hx => h x (by simp [hx])
    rw [serialise_cons]
    cases e with
    | nil => exact absurd rfl he.1
    | cons c cs =>
      have hc : c ≠ '#' := fun hh => he.2 (by simp [hh])
      have h1 : adjacentDelimiters ('#' :: (c :: cs ++ serialise es)) =
          adjacentDelimiters (c :: cs ++ serialise es) := by
        simp [adjacentDelimiters, hc]
      rw [h1, adjacentDelimiters_append _ _ he.2, ih hes]

theorem getLast?_serialise (entries : List CStr) (h : ∀ e ∈ entries, e ≠ [] ∧ '#' ∉ e) :
    (serialise entries).getLast? ≠ some '#' := by
  rcases List.eq_nil_or_concat entries with h0 | ⟨init, e, h1⟩
  · simp [h0, serialise_nil]
  · subst h1
    rw [List.concat_eq_append] at h ⊢
    have he := h e (by simp)
    have hs := stripTrailingDelimiter_open init e he.2
    rw [if_neg he.1] at hs
    intro hl
    rw [serialise_append, serialise_cons, serialise_nil, List.append_nil] at hl
    rw [stripTrailingDelimiter, if_pos hl] at hs
    have hlen := congrArg List.length hs
    rw [List.length_dropLast, serialise_append, serialise_cons, serialise_nil,
      List.append_nil] at hlen
    simp at hlen

theorem wellDelimited_serialise (entries : List CStr) (h : ∀ e ∈ entries, e ≠ [] ∧ '#' ∉ e) :
    serialise entries = [] ∨ wellDelimited (serialise entries) = true := by
  cases entries with
  | nil => exact Or.inl rfl
  | cons e es =>
    right
    have h1 := adjacentDelimiters_serialise (e :: es) h
    have h2 := getLast?_serialise (e :: es) h
    simp only [wellDelimited, h1, Bool.not_false, Bool.and_true, Bool.and_eq_true,
      beq_iff_eq, bne_iff_ne, ne_eq]
    exact ⟨by rw [serialise_cons]; rfl, h2⟩

theorem splitPlaylist_filled (mem : AllocSite → Bool) (hmem : ∀ site, mem site = true)
    (entries : List CStr) (h : ∀ e ∈ entries, e ≠ [] ∧ '#' ∉ e) :
    countDelimiters (serialise entries) =
        (strtokAll stringDelimiter (serialise entries) []).length ∧
      ∃ p, splitPlaylist mem (serialise entries) = some (some p, false) ∧ p.filled := by
  refine ⟨?_, _, splitPlaylist_serialise mem hmem entries h, ?_⟩
  · rw [countDelimiters_serialise entries (fun e he => (h e he).2),
      strtokAll_serialise entries h]
    simp
  · exact ⟨by simp, by simp⟩

theorem m3uLoop_shape (env : Env) (hmem : ∀ site, env.mem site = true) (allocSize : Nat)
    (text : List Char) :
    ∀ (skip : Bool) (done : List CStr) (p : CStr) (lb : Char) (ac : Nat),
      Char.ofNat 0 ∉ text →
      (lb = '#' ↔ p = []) → '#' ∉ p → Char.ofNat 0 ∉ p →
      (∀ e ∈ done, e ≠ [] ∧ '#' ∉ e ∧ Char.ofNat 0 ∉ e) →
      ∃ st entries, m3uLoop env allocSize text skip
              { serializedPlaylist := serialise done ++ '#' :: p, lastBuf := lb,
                allocCount := ac } = some st ∧
        stripTrailingDelimiter st.serializedPlaylist = serialise entries ∧
        ∀ e ∈ entries, e ≠ [] ∧ '#' ∉ e ∧ Char.ofNat 0 ∉ e := by
  induction text with
  | nil =>
    intro skip done p lb ac _ _ hh hz hdone
    refine ⟨{ serializedPlaylist := serialise done ++ '#' :: p, lastBuf := lb,
              allocCount := ac }, done ++ (if p = [] then [] else [p]), by simp [m3uLoop],
      stripTrailingDelimiter_open done p hh, ?_⟩
    intro e he
    rcases List.mem_append.mp he with h | h
    · exact hdone e h
    · by_cases hp : p = []
      · simp [hp] at h
      · simp only [if_neg hp, List.mem_singleton] at h
        subst h
        exact ⟨hp, hh, hz⟩
  | cons c t ih =>
    intro skip done p lb ac hnul hlb hh hz hdone
    have hc0 : c ≠ Char.ofNat 0 := fun h => hnul (by simp [h])
    have ht : Char.ofNat 0 ∉ t := fun h => hnul (by simp [h])
    cases skip with
    | true =>
      obtain ⟨st, es, h1, h2, h3⟩ := ih (c != '\n') done p lb ac ht hlb hh hz hdone
      exact ⟨st, es, by simpa [m3uLoop] using h1, h2, h3⟩
    | false =>
      by_cases hc : c = '#'
      · obtain ⟨st, es, h1, h2, h3⟩ := ih true done p lb ac ht hlb hh hz hdone
        exact ⟨st, es, by simpa [m3uLoop, hc] using h1, h2, h3⟩
      · by_cases hn : c = '\n' ∨ c = '\r'
        · obtain ⟨ac', hstep⟩ := m3uLoop_newline env hmem allocSize c t
            (serialise done ++ '#' :: p) lb ac hn
          rw [hstep]
          by_cases hp : p = []
          · have hlb' : lb = '#' := hlb.mpr hp
            rw [if_neg (by simp [hlb'])]
            exact ih false done p lb ac' ht hlb hh hz hdone
          · have hlb' : lb ≠ '#' := fun he => hp (hlb.mp he)
            rw [if_pos hlb']
            obtain ⟨st, es, h1, h2, h3⟩ := ih false (done ++ [p]) [] '#' ac' ht (by simp)
              (by simp) (by simp) (by
                intro e he
                rcases List.mem_append.mp he with h | h
                · exact hdone e h
                · simp only [List.mem_singleton] at h
                  subst h
                  exact ⟨hp, hh, hz⟩)
            refine ⟨st, es, ?_, h2, h3⟩
            simpa [serialise_append, serialise_cons, serialise_nil] using h1
        · obtain ⟨ac', hstep⟩ := m3uLoop_data env hmem allocSize c t
            (serialise done ++ '#' :: p) lb ac hc hn
          rw [hstep]
          obtain ⟨st, es, h1, h2, h3⟩ := ih false done (p ++ [c]) c ac' ht (by simp [hc])
            (by simp [hh, Ne.symm hc]) (by simp [hz, Ne.symm hc0]) hdone
          exact ⟨st, es, by simpa using h1, h2, h3⟩

theorem parseM3u_shape (env : Env) (hmem : ∀ site, env.mem site = true) (text : List Char)
    (hnul : Char.ofNat 0 ∉ text)
    (hterm : text.length + 1 < (if env.psram then 65535 else 1024) ∨
      (m3uTidy M3uPos.lineStart text = true ∧
        (text.getLast? = some '\n' ∨ text.getLast? = some '\r'))) :
    ∃ entries, parseM3u env text = some (some (serialise entries)) ∧
      ∀ e ∈ entries, e ≠ [] ∧ '#' ∉ e := by
  obtain ⟨st, es, h1, h2, h3⟩ := m3uLoop_shape env hmem (if env.psram then 65535 else 1024)
    text false [] [] '#' 1 hnul (by simp) (by simp) (by simp) (by simp)
  simp only [serialise_nil, List.nil_append] at h1
  have hn : Char.ofNat 0 ∉ serialise es :=
    nul_not_mem_serialise _ (fun e he => (h3 e he).2.2)
  refine ⟨es, ?_, fun e he => ⟨(h3 e he).1, (h3 e he).2.1⟩⟩
  rw [parseM3u_returns env text st (hmem _) h1 hterm, h2, cstr_eq_self _ hn]

/-- C17 (amended): with allocations succeeding, for a directory listing whose children
have full paths shorter than 255 characters without '#', and for an m3u text without
NUL bytes that fits the first chunk of the list buffer (fewer than 1023 bytes, 65534
with PSRAM) or that, with '#' only in comment lines as in C4, ends with a line
terminator: the serialized list handed to the count-and-split step is empty or starts
with '#', has no two adjacent '#' and does not end with '#'; the number of '#' counted
equals the number of tokens of the split, and every slot behind the count element of the
array is filled with an entry. -/
theorem producers_well_delimited (env : Env) (allocSize : Nat) (caching : Bool)
    (children : List Child) (text : List Char)
    (hmem : ∀ site, env.mem site = true)
    (hpaths : ∀ c ∈ children, '/' ∈ c.path ∧ c.path.length < 255 ∧ '#' ∉ c.path)
    (hnul : Char.ofNat 0 ∉ text)
    (hterm : text.length + 1 < (if env.psram then 65535 else 1024) ∨
      (m3uTidy M3uPos.lineStart text = true ∧
        (text.getLast? = some '\n' ∨ text.getLast? = some '\r'))) :
    (∃ st, scanLoop env allocSize caching children 0
          { serializedPlaylist := [], allocCount := 1, cacheOut := [] } = some (true, st) ∧
        (st.serializedPlaylist = [] ∨ wellDelimited st.serializedPlaylist = true) ∧
        countDelimiters st.serializedPlaylist =
          (strtokAll stringDelimiter st.serializedPlaylist []).length ∧
        ∃ p, splitPlaylist env.mem st.serializedPlaylist = some (some p, false) ∧
          p.filled) ∧
      (∃ s, parseM3u env text = some (some s) ∧
        (s = [] ∨ wellDelimited s = true) ∧
        countDelimiters s = (strtokAll stringDelimiter s []).length ∧
        ∃ p, splitPlaylist env.mem s = some (some p, false) ∧ p.filled) := by
  constructor
  · have hacc : ∀ e ∈ acceptedPaths children, e ≠ [] ∧ '#' ∉ e := by
      intro e he
      obtain ⟨c, hc, rfl, -, -⟩ := acceptedPaths_mem children e he
      have := hpaths c hc
      exact ⟨fun h0 => by rw [h0] at this; simp at this, this.2.2⟩
    obtain ⟨ac, hac⟩ := scanLoop_accepts env hmem allocSize caching children
      (fun c hc => ⟨(hpaths c hc).1, (hpaths c hc).2.1⟩) 0
      { serializedPlaylist := [], allocCount := 1, cacheOut := [] }
    refine ⟨_, hac, ?_, ?_⟩
    · simpa using wellDelimited_serialise _ hacc
    · simpa using splitPlaylist_filled env.mem hmem _ hacc
  · obtain ⟨entries, hparse, hent⟩ := parseM3u_shape env hmem text hnul hterm
    exact ⟨_, hparse, wellDelimited_serialise _ hent, splitPlaylist_filled env.mem hmem _ hent⟩

theorem producers_well_delimited_witness :
    (∃ st, scanLoop sampleEnv 4096 false testChildren 0
          { serializedPlaylist := [], allocCount := 1, cacheOut := [] } = some (true, st) ∧
        (st.serializedPlaylist = [] ∨ wellDelimited st.serializedPlaylist = true) ∧
        countDelimiters st.serializedPlaylist =
          (strtokAll stringDelimiter st.serializedPlaylist []).length ∧
        ∃ p, splitPlaylist sampleEnv.mem st.serializedPlaylist = some (some p, false) ∧
          p.filled) ∧
      (∃ s, parseM3u sampleEnv "#comment\n\n/a.mp3\n/b.mp3\n\n".toList = some (some s) ∧
        (s = [] ∨ wellDelimited s = true) ∧
        countDelimiters s = (strtokAll stringDelimiter s []).length ∧
        ∃ p, splitPlaylist sampleEnv.mem s = some (some p, false) ∧ p.filled) :=
  producers_well_delimited sampleEnv 4096 false testChildren
    "#comment\n\n/a.mp3\n/b.mp3\n\n".toList (fun _ => rfl) (by decide) (by decide)
    (Or.inl (by decide))

set_option maxRecDepth 100000 in
/-- C17 as stated fails.  For the child `/m/a##b.mp3` the serialized list is
"#/m/a##b.mp3": it holds two adjacent '#', three '#' are counted, the split yields two
tokens, and slot 3 of the array stays unwritten.  For the m3u bytes 'a', newline, NUL the
list read as a C string is "#a#": it ends with '#', two '#' are counted and one token
is found.  For a directory without children the list is empty and starts with no '#'.
For the 1059 bytes of `unterminatedText`, which hold no NUL byte, the buffer is grown
and left without terminator: there is no serialized list whose shape could be told. -/
theorem empty_entry_counterexample :
    ((scanLoop sampleEnv 4096 false [{ path := "/m/a##b.mp3".toList, isDir := false }] 0
          { serializedPlaylist := [], allocCount := 1, cacheOut := [] }).map
          (fun r => r.2.serializedPlaylist) = some "#/m/a##b.mp3".toList ∧
        adjacentDelimiters "#/m/a##b.mp3".toList = true ∧
        countDelimiters "#/m/a##b.mp3".toList = 3 ∧
        (strtokAll stringDelimiter "#/m/a##b.mp3".toList []).length = 2 ∧
        (SdCard_ReturnPlaylist sampleEnv doubleHashCard "/m".toList
            PlayMode.SINGLE_TRACK).map Outcome.files =
          some (some { slots := 3, count := some "3".toList,
                       entries := [some "/m/a".toList, some "b.mp3".toList] })) ∧
      (parseM3u sampleEnv ['a', '\n', Char.ofNat 0] = some (some "#a#".toList) ∧
        "#a#".toList.getLast? = some '#' ∧
        countDelimiters "#a#".toList = 2 ∧
        (strtokAll stringDelimiter "#a#".toList []).length = 1) ∧
      ((scanLoop sampleEnv 4096 false [] 0
          { serializedPlaylist := [], allocCount := 1, cacheOut := [] }).map
          (fun r => r.2.serializedPlaylist.head?) = some none) ∧
      (Char.ofNat 0 ∉ unterminatedText ∧ parseM3u sampleEnv unterminatedText = none) := by
  decide

/-! ### Buffer sizes of `SdCard_pickRandomSubdirectory` -/

theorem pickSizesLoop_agrees (env : Env) (allocSize : Nat) (children : List Child) :
    ∀ (list : CStr) (allocCount directoryCount allocated : Nat),
      (pickSizesLoop env allocSize children
          { length := list.length, allocCount := allocCount, allocated := allocated }).1 =
        (pickLoop env allocSize children (list, allocCount, directoryCount)).1 ∧
      (pickSizesLoop env allocSize children
          { length := list.length, allocCount := allocCount, allocated := allocated }).2.length =
        (pickLoop env allocSize children (list, allocCount, directoryCount)).2.1.length ∧
      (pickSizesLoop env allocSize children
          { length := list.length, allocCount := allocCount,
            allocated := allocated }).2.allocCount =
        (pickLoop env allocSize children (list, allocCount, directoryCount)).2.2.1 := by
  induction children with
  | nil => intro list ac dc al; simp [pickSizesLoop, pickLoop]
  | cons c rest ih =>
    intro list ac dc al
    cases h1 : (env.fileExplorerSpeedup && c.path.isEmpty) with
    | true => simp [pickSizesLoop, pickLoop, h1]
    | false =>
      cases h2 : (if env.fileExplorerSpeedup then c.isDir else !c.isDir) with
      | true =>
        have := ih list ac dc al
        simpa only [pickSizesLoop, pickLoop, h1, h2, if_true, Bool.false_eq_true,
          if_false] using this
      | false =>
        by_cases h3 : list.length + (strncpy c.path 255).length + 2 ≥ ac * allocSize
        · cases h4 : env.mem (AllocSite.pickGrow ((ac + 1) % 256)) with
          | true =>
            have := ih (list ++ stringDelimiter ++ strncpy c.path 255) ((ac + 1) % 256)
              ((dc + 1) % 65536) ((ac + 1) % 256 * allocSize)
            simp only [List.length_append, stringDelimiter, List.length_singleton] at this
            simpa only [pickSizesLoop, pickLoop, h1, h2, h3, h4, if_true, Bool.false_eq_true,
              if_false, stringDelimiter] using this
          | false =>
            simp only [pickSizesLoop, pickLoop, h1, h2, h3, h4, if_true, Bool.false_eq_true,
              if_false, and_self]
        · have := ih (list ++ stringDelimiter ++ strncpy c.path 255) ac
            ((dc + 1) % 65536) al
          simp only [List.length_append, stringDelimiter, List.length_singleton] at this
          simpa only [pickSizesLoop, pickLoop, h1, h2, h3, if_true, Bool.false_eq_true,
            if_false, stringDelimiter] using this

set_option maxRecDepth 100000 in
/-- C18 (failing input): without PSRAM (chunks of 1024 bytes), on the directory `/d` with
five subdirectories whose paths have 243 characters, a first call grows the buffer and
leaves the static `allocCount` at 2.  The next call on the same directory enters with
the chunk count 2 while `x_calloc` gave one chunk of 1024 bytes: the overflow test
compares against 2048, no `realloc` happens, and the list of 1220 characters, which
needs 1222 bytes with the final delimiter and the terminator, is written to the block of
1024 bytes. -/
theorem pick_static_chunk_count :
    (SdCard_pickRandomSubdirectory legacyEnv longCard 1 "/d".toList 0).allocCount = 2 ∧
      pickSizes legacyEnv longCard 1 "/d".toList =
        some (true, { length := 1220, allocCount := 2, allocated := 2048 }) ∧
      pickSizes legacyEnv longCard 2 "/d".toList =
        some (true, { length := 1220, allocCount := 2, allocated := 1024 }) := by
  decide

/-! ### Buffer sizes of the directory scan -/

theorem scanLoop_invariant (env : Env) (hzero : env.mem (AllocSite.scanGrow 0) = false)
    (allocSize : Nat) (hA : allocSize = 4096 ∨ allocSize = 65535) (caching : Bool)
    (children : List Child) :
    ∀ (i : Nat) (st st' : ScanState),
      (∀ c ∈ children, c.path.length < 255) →
      st.allocCount < 65536 →
      st.serializedPlaylist.length + 1 < st.allocCount * allocSize →
      scanLoop env allocSize caching children i st = some (true, st') →
      st'.allocCount < 65536 ∧
        st'.serializedPlaylist.length + 1 < st'.allocCount * allocSize := by
  induction children with
  | nil =>
    intro i st st' _ hac hfit hrun
    simp only [scanLoop, Option.some.injEq, Prod.mk.injEq, true_and] at hrun
    subst hrun
    exact ⟨hac, hfit⟩
  | cons c rest ih =>
    intro i st st' hpaths hac hfit hrun
    have hlen := hpaths c (by simp)
    have hrest : ∀ x ∈ rest, x.path.length < 255 := fun x hx => hpaths x (by simp [hx])
    have hcpy : strncpy c.path 255 = c.path := strncpy_eq_self _ _ (by omega)
    rw [scanLoop] at hrun
    cases h1 : (env.fileExplorerSpeedup && c.path.isEmpty) with
    | true =>
      simp only [h1, if_true, Option.some.injEq, Prod.mk.injEq, true_and] at hrun
      subst hrun
      exact ⟨hac, hfit⟩
    | false =>
      simp only [h1, Bool.false_eq_true, if_false] at hrun
      cases hd : c.isDir with
      | true =>
        simp only [hd, if_true] at hrun
        exact ih _ _ _ hrest hac hfit hrun
      | false =>
        simp only [hd, Bool.false_eq_true, if_false, hcpy] at hrun
        cases hv : fileValid (env.mem (AllocSite.validDup i)) c.path with
        | none =>
          rw [hv] at hrun
          exact absurd hrun (by simp)
        | some b =>
          cases b with
          | false =>
            simp only [hv] at hrun
            exact ih _ _ _ hrest hac hfit hrun
          | true =>
            simp only [hv] at hrun
            by_cases hg : st.serializedPlaylist.length + c.path.length + 2 ≥
                st.allocCount * allocSize
            · rw [if_pos hg] at hrun
              cases hm : env.mem (AllocSite.scanGrow ((st.allocCount + 1) % 65536)) with
              | false =>
                simp [hm] at hrun
              | true =>
                have hnz : (st.allocCount + 1) % 65536 ≠ 0 := by
                  intro h0
                  rw [h0, hzero] at hm
                  cases hm
                have hmod : (st.allocCount + 1) % 65536 = st.allocCount + 1 := by omega
                rw [hmod] at hm hrun
                simp only [hm, if_true] at hrun
                refine ih _ _ _ hrest ?_ ?_ hrun
                · simp only [ScanState.append]
                  omega
                · simp only [ScanState.append, stringDelimiter, List.length_append,
                    List.length_singleton]
                  rcases hA with rfl | rfl <;> omega
            · rw [if_neg hg] at hrun
              refine ih _ _ _ hrest ?_ ?_ hrun
              · simpa only [ScanState.append] using hac
              · simp only [ScanState.append, stringDelimiter, List.length_append,
                  List.length_singleton]
                omega

theorem serialise_length_cons (e : CStr) (es : List CStr) :
    (serialise (e :: es)).length = 1 + e.length + (serialise es).length := by
  rw [serialise_cons]
  simp
  omega

theorem scanLoop_runs (env : Env)
    (hmem : ∀ site, site ≠ AllocSite.scanGrow 0 → env.mem site = true) (allocSize : Nat)
    (hA : allocSize = 4096 ∨ allocSize = 65535) (caching : Bool) (children : List Child) :
    ∀ (i : Nat) (st : ScanState),
      (∀ c ∈ children, '/' ∈ c.path ∧ c.path.length < 255) →
      st.allocCount * allocSize ≤ st.serializedPlaylist.length + 1 + allocSize →
      st.serializedPlaylist.length + 1 < st.allocCount * allocSize →
      st.serializedPlaylist.length + (serialise (acceptedPaths children)).length + 1 <
        65535 * allocSize →
      ∃ st', scanLoop env allocSize caching children i st = some (true, st') ∧
        st'.serializedPlaylist = st.serializedPlaylist ++ serialise (acceptedPaths children) := by
  induction children with
  | nil =>
    intro i st _ _ _ _
    exact ⟨st, by simp [scanLoop], by simp [acceptedPaths_nil, serialise_nil]⟩
  | cons c rest ih =>
    intro i st hpaths h1 h2 hbound
    have hc := hpaths c (by simp)
    have hrest : ∀ x ∈ rest, '/' ∈ x.path ∧ x.path.length < 255 :=
      fun x hx => hpaths x (by simp [hx])
    have hne : c.path.isEmpty = false := by
      cases hp : c.path with
      | nil => rw [hp] at hc; simp at hc
      | cons a as => rfl
    have hcpy : strncpy c.path 255 = c.path := strncpy_eq_self _ _ (by omega)
    have hdup : env.mem (AllocSite.validDup i) = true := hmem _ (by simp)
    cases hd : c.isDir with
    | true =>
      rw [acceptedPaths_cons_dir c rest hd] at hbound ⊢
      obtain ⟨st', h3, h4⟩ := ih (i + 1) st hrest h1 h2 hbound
      exact ⟨st', by simpa [scanLoop, hne, hd] using h3, h4⟩
    | false =>
      obtain ⟨b, hb⟩ := fileValid_some c.path hc.1
      cases b with
      | false =>
        rw [acceptedPaths_cons_invalid c rest hb] at hbound ⊢
        obtain ⟨st', h3, h4⟩ := ih (i + 1) st hrest h1 h2 hbound
        exact ⟨st', by simpa [scanLoop, hne, hd, hcpy, hdup, hb] using h3, h4⟩
      | true =>
        rw [acceptedPaths_cons_valid c rest hd hb] at hbound ⊢
        rw [serialise_length_cons] at hbound
        by_cases hg : st.serializedPlaylist.length + c.path.length + 2 ≥ st.allocCount * allocSize
        · have hmod : (st.allocCount + 1) % 65536 = st.allocCount + 1 := by
            apply Nat.mod_eq_of_lt
            rcases hA with rfl | rfl <;> omega
          have hgrow : env.mem (AllocSite.scanGrow (st.allocCount + 1)) = true :=
            hmem _ (by simp)
          have hlen : (st.append (st.allocCount + 1) caching c.path).serializedPlaylist.length =
              st.serializedPlaylist.length + 1 + c.path.length := by
            simp [ScanState.append, stringDelimiter]
            omega
          obtain ⟨st', h3, h4⟩ := ih (i + 1)
            (st.append (st.allocCount + 1) caching c.path) hrest
            (by rw [hlen]; simp only [ScanState.append]; rcases hA with rfl | rfl <;> omega)
            (by rw [hlen]; simp only [ScanState.append]; rcases hA with rfl | rfl <;> omega)
            (by rw [hlen]; omega)
          refine ⟨st', ?_, ?_⟩
          · simp only [scanLoop, hne, hd, hcpy, hdup, hb, hg, Bool.and_false, if_true,
              Bool.false_eq_true, if_false, hmod, hgrow]
            exact h3
          · rw [h4]
            simp [ScanState.append, stringDelimiter, serialise_cons]
        · have hlen : (st.append st.allocCount caching c.path).serializedPlaylist.length =
              st.serializedPlaylist.length + 1 + c.path.length := by
            simp [ScanState.append, stringDelimiter]
            omega
          obtain ⟨st', h3, h4⟩ := ih (i + 1)
            (st.append st.allocCount caching c.path) hrest
            (by rw [hlen]; simp only [ScanState.append]; omega)
            (by rw [hlen]; simp only [ScanState.append]; omega)
            (by rw [hlen]; omega)
          refine ⟨st', ?_, ?_⟩
          · simp only [scanLoop, hne, hd, hcpy, hdup, hb, hg, Bool.and_false, if_true,
              Bool.false_eq_true, if_false]
            exact h3
          · rw [h4]
            simp [ScanState.append, stringDelimiter, serialise_cons]

theorem acceptedPaths_append (xs ys : List Child) :
    acceptedPaths (xs ++ ys) = acceptedPaths xs ++ acceptedPaths ys := by
  simp [acceptedPaths, List.filter_append]

theorem serialise_take_length (children : List Child) (k : Nat) :
    (serialise (acceptedPaths (children.take k))).length ≤
      (serialise (acceptedPaths children)).length := by
  have h : (serialise (acceptedPaths children)).length =
      (serialise (acceptedPaths (children.take k))).length +
        (serialise (acceptedPaths (children.drop k))).length := by
    rw [← List.length_append, ← serialise_append, ← acceptedPaths_append,
      List.take_append_drop]
  omega

/-- C19: for either chunk size (4096 or 65535), an allocator that gives no block for a
request of size 0, and children with paths shorter than 255 characters: whenever the
loop has handled an initial part of the enumeration with every reallocation succeeding
(it did not leave through the failure branch of lines 438-443), the length of the
serialized list plus its terminating NUL is at most `allocCount * allocSize`, the size
of the block allocated at that moment; the one chunk added per append was enough.  The
loop does get there, with the list of the accepted paths, when every other request is
granted, the paths are full paths, and the list with its terminator stays below 65535
chunks. -/
theorem scan_buffer_fits (env : Env) (allocSize : Nat) (caching : Bool)
    (children : List Child) (k : Nat)
    (hA : allocSize = 4096 ∨ allocSize = 65535)
    (hzero : env.mem (AllocSite.scanGrow 0) = false)
    (hpaths : ∀ c ∈ children, c.path.length < 255) :
    (∀ st, scanLoop env allocSize caching (children.take k) 0
          { serializedPlaylist := [], allocCount := 1, cacheOut := [] } = some (true, st) →
        st.serializedPlaylist.length + 1 ≤ st.allocCount * allocSize) ∧
      ((∀ site, site ≠ AllocSite.scanGrow 0 → env.mem site = true) →
        (∀ c ∈ children, '/' ∈ c.path) →
        (serialise (acceptedPaths children)).length + 1 < 65535 * allocSize →
        ∃ st, scanLoop env allocSize caching (children.take k) 0
            { serializedPlaylist := [], allocCount := 1, cacheOut := [] } = some (true, st) ∧
          st.serializedPlaylist = serialise (acceptedPaths (children.take k))) := by
  constructor
  · intro st hrun
    have h := scanLoop_invariant env hzero allocSize hA caching (children.take k) 0
      { serializedPlaylist := [], allocCount := 1, cacheOut := [] } st
      (fun c hc => hpaths c (List.mem_of_mem_take hc)) (by decide)
      (by simp only [List.length_nil]; rcases hA with rfl | rfl <;> omega) hrun
    omega
  · intro hmem hfull hbound
    have hk := serialise_take_length children k
    obtain ⟨st, h1, h2⟩ := scanLoop_runs env hmem allocSize hA caching (children.take k) 0
      { serializedPlaylist := [], allocCount := 1, cacheOut := [] }
      (fun c hc => ⟨hfull c (List.mem_of_mem_take hc), hpaths c (List.mem_of_mem_take hc)⟩)
      (by simp)
      (by simp only [List.length_nil]; rcases hA with rfl | rfl <;> omega)
      (by simp only [List.length_nil]; omega)
    exact ⟨st, h1, by simpa using h2⟩

theorem scan_buffer_fits_witness :
    scanLoop targetEnv 4096 true (testChildren.take 2) 0
        { serializedPlaylist := [], allocCount := 1, cacheOut := [] } =
        some (true, { serializedPlaylist := "#/Test/b.mp3#/Test/a.mp3".toList,
                      allocCount := 1,
                      cacheOut := "#/Test/b.mp3#/Test/a.mp3".toList }) ∧
      "#/Test/b.mp3#/Test/a.mp3".toList.length + 1 ≤ 1 * 4096 :=
  ⟨by decide,
    (scan_buffer_fits targetEnv 4096 true testChildren 2 (Or.inl rfl) (by decide)
      (by decide)).1
      { serializedPlaylist := "#/Test/b.mp3#/Test/a.mp3".toList, allocCount := 1,
        cacheOut := "#/Test/b.mp3#/Test/a.mp3".toList }
      (by decide)⟩

end SdCard
